import Mathlib

/-!
Verification development for the hotel Wi-Fi review pipeline.

The definitions below are a shallow embedding of the pipeline code:
`sanitizeString`, `extractSpeedFromText`, `parseGoogleMapsDate` and
`isReviewWithinYears` from `src/lib/metadata.ts` (the enhanced utils
document), the `RateLimiter` class from the same file, the
`WiFiReviewProcessor.processReviews` validation logic from
`scripts/ai-processor.ts`, and the review-collection loop of
`OptimizedHotelWiFiScraper.searchOptimizedWiFiReviews` from
`scripts/optimized-scraper.ts`.

JavaScript regular-expression matching is embedded by a small
backtracking engine (`mRe`) whose result list is ordered exactly as a
JS engine explores alternatives: leftmost starting position first, at
each position alternatives in written order, greedy quantifiers longest
first.  `firstMatch` therefore returns precisely the match that
`String.prototype.match` (without the global flag) would return.
-/

/-- JS word character for `\w` and `\b`: ASCII letters, digits, underscore. -/
def isWordChar (c : Char) : Bool := c.isAlphanum || c == '_'

/-- JS whitespace for `\s`, `trim`: space, tab, LF, VT, FF, CR, NBSP. -/
def isJsSpace (c : Char) : Bool :=
  c == ' ' || c == '\t' || c == '\n' || c == '\x0b' ||
  c == '\x0c' || c == '\r' || c == '\u00A0'

/-- `String.prototype.trim`: strip whitespace from both ends. -/
def trimList (l : List Char) : List Char :=
  ((l.dropWhile isJsSpace).reverse.dropWhile isJsSpace).reverse

/-- One pass of `replace(/\s+/g, ' ')`: every maximal whitespace run
becomes a single space.  The boolean records whether the previous
character was part of a whitespace run already emitted. -/
def collapseWsGo : Bool → List Char → List Char
  | _, [] => []
  | inRun, c :: rest =>
    if isJsSpace c then
      if inRun then collapseWsGo true rest
      else ' ' :: collapseWsGo true rest
    else c :: collapseWsGo false rest

/-- Characters kept by `replace(/[^\w\s\-.,!?()]/g, '')`. -/
def isAllowedChar (c : Char) : Bool :=
  isWordChar c || isJsSpace c || c == '-' || c == '.' || c == ',' ||
  c == '!' || c == '?' || c == '(' || c == ')'

/-- `sanitizeString` from `src/lib/metadata.ts`:
`str.trim().replace(/\s+/g, ' ').replace(/[^\w\s\-.,!?()]/g, '')`. -/
def sanitizeString (s : String) : String :=
  String.mk ((collapseWsGo false (trimList s.data)).filter isAllowedChar)

/-! ## Regular-expression engine -/

/-- Syntax of the regex fragments used by the pipeline. `grp` is the
single capturing group (`match[1]`) each pattern reads. -/
inductive Reg where
  | eps : Reg
  | lit : List Char → Reg
  | digit : Reg
  | space : Reg
  | anyOf : List Char → Reg
  | wordB : Reg
  | grp : Reg → Reg
  | cat : Reg → Reg → Reg
  | alt : Reg → Reg → Reg
  | star : Reg → Reg
  | opt : Reg → Reg
deriving DecidableEq, Repr

/-- The capture state for group 1: `some (a, b)` means the group
matched the half-open index range `[a, b)`. -/
abbrev Cap := Option (Nat × Nat)

/-- JS `\b`: true when exactly one of the characters around position
`i` is a word character (out of range counts as non-word). -/
def boundaryAt (s : List Char) (i : Nat) : Bool :=
  let wOf : Option Char → Bool := fun oc =>
    match oc with
    | some c => isWordChar c
    | none => false
  let prev : Bool :=
    match i with
    | 0 => false
    | j + 1 => wOf (s.get? j)
  prev != wOf (s.get? i)

/-- Greedy Kleene star over an arbitrary one-step matcher `f`:
results that consume more iterations come first, the empty match last,
exactly like a JS greedy `*`.  Iterations that do not advance are
discarded (a JS engine also stops repeating on an empty match). -/
def mStarAux (f : List Char → Nat → Cap → List (Nat × Cap)) :
    Nat → List Char → Nat → Cap → List (Nat × Cap)
  | 0, _, i, cap => [(i, cap)]
  | fuel + 1, s, i, cap =>
    (((f s i cap).filter (fun p => i < p.1)).flatMap
      (fun p => mStarAux f fuel s p.1 p.2)) ++ [(i, cap)]

/-- Backtracking matcher.  `mRe r s i cap` returns, in JS exploration
order, every pair of (position after the match, capture state) for a
match of `r` starting at position `i` of `s`. -/
def mRe : Reg → List Char → Nat → Cap → List (Nat × Cap)
  | .eps, _, i, cap => [(i, cap)]
  | .lit w, s, i, cap =>
    if w.isPrefixOf (s.drop i) then [(i + w.length, cap)] else []
  | .digit, s, i, cap =>
    match s.get? i with
    | some c => if c.isDigit then [(i + 1, cap)] else []
    | none => []
  | .space, s, i, cap =>
    match s.get? i with
    | some c => if isJsSpace c then [(i + 1, cap)] else []
    | none => []
  | .anyOf cs, s, i, cap =>
    match s.get? i with
    | some c => if cs.contains c then [(i + 1, cap)] else []
    | none => []
  | .wordB, s, i, cap => if boundaryAt s i then [(i, cap)] else []
  | .grp r, s, i, cap => (mRe r s i cap).map (fun p => (p.1, some (i, p.1)))
  | .cat a b, s, i, cap => (mRe a s i cap).flatMap (fun p => mRe b s p.1 p.2)
  | .alt a b, s, i, cap => mRe a s i cap ++ mRe b s i cap
  | .star r, s, i, cap =>
    mStarAux (fun s2 i2 c2 => mRe r s2 i2 c2) (s.length + 1 - i) s i cap
  | .opt r, s, i, cap => mRe r s i cap ++ [(i, cap)]

/-- `text.match(re)` for a non-global regex: the first position (from
the left) with a non-empty backtracking list wins, and within it the
highest-priority alternative. -/
def firstMatch (r : Reg) (s : List Char) : Option (Nat × Cap) :=
  (List.range (s.length + 1)).findSome? (fun i => (mRe r s i none).head?)

/-- Decimal digits to a natural number (JS `parseInt` on a `\d+` capture). -/
def parseDigits (l : List Char) : Nat :=
  l.foldl (fun n c => 10 * n + (c.toNat - 48)) 0

/-- JS `parseFloat` on a `\d+(\.\d+)?` capture, as a rational. -/
def parseDecimal (l : List Char) : ℚ :=
  let ip := l.takeWhile (fun c => c != '.')
  let fp := (l.dropWhile (fun c => c != '.')).drop 1
  (parseDigits ip : ℚ) + (parseDigits fp : ℚ) / (10 : ℚ) ^ fp.length

/-- Right-nested alternation, alternatives tried in list order.
`anyOf []` never matches, so the empty case is a failing regex. -/
def altsRe : List Reg → Reg
  | [] => .anyOf []
  | [r] => r
  | r :: rest => .alt r (altsRe rest)

/-- Right-nested concatenation. -/
def catList : List Reg → Reg
  | [] => .eps
  | [r] => r
  | r :: rest => .cat r (catList rest)

def digitPlus : Reg := .cat .digit (.star .digit)
def spacesStar : Reg := .star .space
def spacesPlus : Reg := .cat .space (.star .space)

/-- `(\d+(?:\.\d+)?)` — the capturing number group of every speed pattern. -/
def numGrp : Reg := .grp (.cat digitPlus (.opt (.cat (.lit ['.']) digitPlus)))

/-- `\d+(?:\.\d+)?` without a capture (second number of a range). -/
def numPlain : Reg := .cat digitPlus (.opt (.cat (.lit ['.']) digitPlus))

/-- `(mbps|mb\/s|mbit\/s|mega|mb|mbit)` in written order. -/
def unitAlts : Reg :=
  altsRe [.lit ("mbps".data), .lit ("mb/s".data), .lit ("mbit/s".data),
    .lit ("mega".data), .lit ("mb".data), .lit ("mbit".data)]

/-- Pattern 1: `/(\d+(?:\.\d+)?)\s*(mbps|mb\/s|mbit\/s|mega|mb|mbit)\b/i`. -/
def speedPat1 : Reg := catList [numGrp, spacesStar, unitAlts, .wordB]

/-- Pattern 2: qualified mention
`/(?:around|about|up\s+to|over|more\s+than|faster\s+than)\s+(num)\s*(unit)\b/i`. -/
def speedPat2 : Reg :=
  catList [altsRe [.lit ("around".data), .lit ("about".data),
      catList [.lit ("up".data), spacesPlus, .lit ("to".data)],
      .lit ("over".data),
      catList [.lit ("more".data), spacesPlus, .lit ("than".data)],
      catList [.lit ("faster".data), spacesPlus, .lit ("than".data)]],
    spacesPlus, numGrp, spacesStar, unitAlts, .wordB]

/-- Pattern 3: range mention
`/(?:between\s+)?(num)\s*[-–]\s*num\s*(unit)\b/i`. -/
def speedPat3 : Reg :=
  catList [.opt (catList [.lit ("between".data), spacesPlus]),
    numGrp, spacesStar, .anyOf ['-', '–'], spacesStar, numPlain,
    spacesStar, unitAlts, .wordB]

/-- Pattern 4: verb-anchored mention
`/(?:got|speed\s+(?:was|is|of)|download\s+(?:speed|rate)|upload\s+(?:speed|rate))\s+(?:around\s+|about\s+|up\s+to\s+)?(num)\s*(?:unit)?\b/i`. -/
def speedPat4 : Reg :=
  catList [altsRe [.lit ("got".data),
      catList [.lit ("speed".data), spacesPlus,
        altsRe [.lit ("was".data), .lit ("is".data), .lit ("of".data)]],
      catList [.lit ("download".data), spacesPlus,
        altsRe [.lit ("speed".data), .lit ("rate".data)]],
      catList [.lit ("upload".data), spacesPlus,
        altsRe [.lit ("speed".data), .lit ("rate".data)]]],
    spacesPlus,
    .opt (altsRe [catList [.lit ("around".data), spacesPlus],
      catList [.lit ("about".data), spacesPlus],
      catList [.lit ("up".data), spacesPlus, .lit ("to".data), spacesPlus]]),
    numGrp, spacesStar, .opt unitAlts, .wordB]

/-- Pattern 5: `/bandwidth\s+(?:of\s+|was\s+|is\s+)?(num)\s*(unit)\b/i`. -/
def speedPat5 : Reg :=
  catList [.lit ("bandwidth".data), spacesPlus,
    .opt (altsRe [catList [.lit ("of".data), spacesPlus],
      catList [.lit ("was".data), spacesPlus],
      catList [.lit ("is".data), spacesPlus]]),
    numGrp, spacesStar, unitAlts, .wordB]

/-- The five speed patterns, in the order the source tries them. -/
def speedPatterns : List Reg :=
  [speedPat1, speedPat2, speedPat3, speedPat4, speedPat5]

/-- The pattern loop of `extractSpeedFromText`: first pattern whose
first match captures a number in `(0, 10000]` wins; an out-of-range
capture falls through to the next pattern. -/
def extractSpeedGo : List Reg → List Char → Option ℚ
  | [], _ => none
  | p :: rest, s =>
    match firstMatch p s with
    | some (_, some (a, b)) =>
      let q := parseDecimal ((s.drop a).take (b - a))
      if 0 < q ∧ q ≤ 10000 then some q else extractSpeedGo rest s
    | _ => extractSpeedGo rest s

/-- `extractSpeedFromText` from `src/lib/metadata.ts`.  The `/i` flag
is embedded by lower-casing the subject (all pattern literals are
lower-case ASCII). -/
def extractSpeedFromText (text : String) : Option ℚ :=
  extractSpeedGo speedPatterns (text.data.map Char.toLower)

/-! ## JavaScript `Date` model

A JS `Date` holds a timestamp; the pipeline only constructs dates from
the current date by calendar-field updates (`setFullYear`, `setMonth`,
`setDate`) and compares them.  We model a date by its proleptic
Gregorian calendar fields plus the milliseconds elapsed in the day;
comparison of JS timestamps is exactly lexicographic comparison of the
normalized fields. -/

structure JsDate where
  year : Int
  /-- 0-based month, `0` = January, as in JS `getMonth`. -/
  month : Nat
  /-- 1-based day of month, as in JS `getDate`. -/
  day : Nat
  /-- milliseconds since local midnight (hours, minutes, seconds, ms). -/
  msOfDay : Nat
deriving DecidableEq, Repr

/-- Gregorian leap-year rule. -/
def isLeap (y : Int) : Bool := y % 4 == 0 && (y % 100 != 0 || y % 400 == 0)

/-- Days in the (0-based) month `m` of year `y`. -/
def daysInMonth (y : Int) (m : Nat) : Nat :=
  match m with
  | 0 => 31
  | 1 => if isLeap y then 29 else 28
  | 2 => 31
  | 3 => 30
  | 4 => 31
  | 5 => 30
  | 6 => 31
  | 7 => 31
  | 8 => 30
  | 9 => 31
  | 10 => 30
  | _ => 31

/-- A calendar-valid date. -/
def JsDate.Valid (d : JsDate) : Prop :=
  d.month ≤ 11 ∧ 1 ≤ d.day ∧ d.day ≤ daysInMonth d.year d.month ∧
    d.msOfDay < 86400000

instance (d : JsDate) : Decidable d.Valid := by
  unfold JsDate.Valid; infer_instance

/-- Days of year `y` strictly before (0-based) month `m`. -/
def daysBeforeMonth (y : Int) : Nat → Nat
  | 0 => 0
  | m + 1 => daysBeforeMonth y m + daysInMonth y m

/-- Days strictly before January 1 of year `y`, counted from the
proleptic Gregorian day 0; chosen so that
`daysBeforeYear (y+1) - daysBeforeYear y = 365 + leap y`. -/
def daysBeforeYear (y : Int) : Int :=
  365 * y + (y - 1) / 4 - (y - 1) / 100 + (y - 1) / 400

/-- Absolute day index of a date (strictly monotone in the calendar
order); the day count JS derives its timestamp from. -/
def toDays (d : JsDate) : Int :=
  daysBeforeYear d.year + daysBeforeMonth d.year d.month + d.day

/-- JS `d.setFullYear(y)`: replace the year; Feb 29 of a non-leap
target year normalizes to Mar 1 (day overflow). -/
def setFullYear (d : JsDate) (y : Int) : JsDate :=
  if d.month = 1 ∧ d.day = 29 ∧ isLeap y = false then
    ⟨y, 2, 1, d.msOfDay⟩
  else
    ⟨y, d.month, d.day, d.msOfDay⟩

/-- JS `d.setMonth(m)` for a possibly negative month index `m`:
the year absorbs `⌊m/12⌋`, the month becomes `m mod 12`, and a day
beyond the target month's length rolls into the following month (a
valid day is at most 31 and every month has at least 28 days, so a
single roll suffices and December, with 31 days, never rolls). -/
def setMonthJs (d : JsDate) (m : Int) : JsDate :=
  let y2 : Int := d.year + m / 12
  let m2 : Nat := (m % 12).toNat
  if d.day > daysInMonth y2 m2 then
    if m2 = 11 then ⟨y2 + 1, 0, d.day - daysInMonth y2 m2, d.msOfDay⟩
    else ⟨y2, m2 + 1, d.day - daysInMonth y2 m2, d.msOfDay⟩
  else ⟨y2, m2, d.day, d.msOfDay⟩

/-- Day-overflow normalization for JS `setDate`: starting from the
first of month `(y, m)`, move `x - 1` days forward (`x` may be ≤ 0 or
beyond the month's length).  Fueled recursion; the fuel chosen by
`setDateJs` is proved sufficient. -/
def setDateAux : Nat → Int → Nat → Int → Nat → JsDate
  | 0, y, m, _, ms => ⟨y, m, 1, ms⟩
  | fuel + 1, y, m, x, ms =>
    if x < 1 then
      let y2 := if m = 0 then y - 1 else y
      let m2 := if m = 0 then 11 else m - 1
      setDateAux fuel y2 m2 (x + daysInMonth y2 m2) ms
    else if x > daysInMonth y m then
      let y2 := if m = 11 then y + 1 else y
      let m2 := if m = 11 then 0 else m + 1
      setDateAux fuel y2 m2 (x - daysInMonth y m) ms
    else ⟨y, m, x.toNat, ms⟩

/-- JS `d.setDate(x)`: replace the day of month by `x` (possibly ≤ 0
or past the end of the month) and normalize. -/
def setDateJs (d : JsDate) (x : Int) : JsDate :=
  setDateAux (x.natAbs + 80) d.year d.month x d.msOfDay

/-- JS `Date` comparison `a <= b` on timestamps: lexicographic on the
normalized calendar fields. -/
def dateLe (a b : JsDate) : Bool :=
  if a.year ≠ b.year then a.year < b.year
  else if a.month ≠ b.month then a.month < b.month
  else if a.day ≠ b.day then a.day < b.day
  else a.msOfDay ≤ b.msOfDay

/-! ## Date parsing (`parseGoogleMapsDate`) -/

/-- `/\b(20\d{2})\b/` — the absolute-year pattern. -/
def yearAbsRe : Reg :=
  catList [.wordB, .grp (catList [.lit ("20".data), .digit, .digit]), .wordB]

/-- The part of a relative pattern after the amount alternation:
`\s+<unit>s?\s+ago`. -/
def relTail (u : List Char) : Reg :=
  catList [spacesPlus, .lit u, .opt (.lit ("s".data)), spacesPlus,
    .lit ("ago".data)]

/-- `/(?:(\d+)|a|an|one)\s+<unit>s?\s+ago/i` with the unit word given
as `u` ("year", "month", "week" or "day"). -/
def relRe (u : List Char) : Reg :=
  .cat (altsRe [.grp digitPlus, .lit ("a".data), .lit ("an".data),
    .lit ("one".data)]) (relTail u)

/-- The decimal digit characters. -/
def digitChars : List Char := ['0', '1', '2', '3', '4', '5', '6', '7', '8', '9']

/-- Regexes free of word boundaries and capture groups: for these,
matching is translation invariant and capture-state preserving. -/
def noGW : Reg → Bool
  | .eps => true
  | .lit _ => true
  | .digit => true
  | .space => true
  | .anyOf _ => true
  | .wordB => false
  | .grp _ => false
  | .cat a b => noGW a && noGW b
  | .alt a b => noGW a && noGW b
  | .star r => noGW r
  | .opt r => noGW r

/-- `/yesterday/i`. -/
def yesterdayRe : Reg := .lit ("yesterday".data)

/-- The matched amount of a relative pattern: the digits of group 1
when it participated, otherwise 1 ("a/an/one ... ago"). -/
def relValue (s : List Char) (cap : Cap) : Nat :=
  match cap with
  | some (a, b) => parseDigits ((s.drop a).take (b - a))
  | none => 1

/-- `parseGoogleMapsDate` from `src/lib/metadata.ts`, relative to the
current date `now` (the code's `new Date()`).  Tries the absolute
`20\d{2}` year first (resolved to December 31 of that year), then the
relative year/month/week/day patterns in order, then `yesterday`;
returns `none` when nothing matches or the input is blank. -/
def parseGoogleMapsDate (now : JsDate) (dateText : String) : Option JsDate :=
  let t0 := trimList dateText.data
  if t0 = [] then none else
  let text := t0.map Char.toLower
  match firstMatch yearAbsRe text with
  | some (_, some (a, b)) =>
    some ⟨(parseDigits ((text.drop a).take (b - a)) : Int), 11, 31, 0⟩
  | _ =>
    match firstMatch (relRe ("year".data)) text with
    | some (_, cap) =>
      some (setFullYear now (now.year - relValue text cap))
    | none =>
      match firstMatch (relRe ("month".data)) text with
      | some (_, cap) =>
        some (setMonthJs now ((now.month : Int) - relValue text cap))
      | none =>
        match firstMatch (relRe ("week".data)) text with
        | some (_, cap) =>
          some (setDateJs now ((now.day : Int) - 7 * relValue text cap))
        | none =>
          match firstMatch (relRe ("day".data)) text with
          | some (_, cap) =>
            some (setDateJs now ((now.day : Int) - relValue text cap))
          | none =>
            match firstMatch yesterdayRe text with
            | some _ => some (setDateJs now ((now.day : Int) - 1))
            | none => none

/-- `isReviewWithinYears` from `src/lib/metadata.ts`: parse the date
text; an unparseable date passes; otherwise compare against `now`
moved back by `years` years. -/
def isReviewWithinYears (now : JsDate) (dateText : String)
    (years : Nat) : Bool :=
  match parseGoogleMapsDate now dateText with
  | none => true
  | some reviewDate => dateLe (setFullYear now (now.year - years)) reviewDate

/-! ## AI processor (`WiFiReviewProcessor.processReviews`) -/

/-- One raw Wi-Fi review handed to the processor (`WiFiReview` in
`scripts/ai-processor.ts`). -/
structure WiFiReview where
  hotel_id : String
  reviewer_name : String
  rating : Nat
  review_text : String
  review_date : String
  wifi_mentioned : Bool
  extracted_speed : Option ℚ
deriving DecidableEq, Repr

/-- The `use_case_scores` sub-object of a parsed model response; each
field is absent (`none`) when the JSON lacks it. -/
structure UseCaseScoresRaw where
  video_calls : Option ℚ := none
  streaming : Option ℚ := none
  uploads : Option ℚ := none
  general_browsing : Option ℚ := none
deriving DecidableEq, Repr

/-- The `speed_analysis` sub-object of a parsed model response. -/
structure SpeedAnalysisRaw where
  mentioned_speeds : Option (List ℚ) := none
  average_speed : Option ℚ := none
  speed_consistency : Option String := none
deriving DecidableEq, Repr

/-- A successfully JSON-parsed model response, before validation.
`none` in a field models a missing / non-array / wrong-typed JSON
member (the code reads each with optional chaining and type tests). -/
structure AIResult where
  summary : Option String := none
  overall_score : Option ℚ := none
  positive_highlights : Option (List String) := none
  warnings : Option (List String) := none
  use_case_scores : Option UseCaseScoresRaw := none
  speed_analysis : Option SpeedAnalysisRaw := none
  location_quirks : Option (List String) := none
  time_patterns : Option (List String) := none
  connection_quirks : Option (List String) := none
  business_traveler_notes : Option (List String) := none
  unique_features : Option (List String) := none
deriving DecidableEq, Repr

/-- The validated summary (`WiFiSummary` in `scripts/ai-processor.ts`).
The wall-clock `generated_at` field is not modelled. -/
structure WiFiSummary where
  hotel_id : String
  summary : String
  overall_score : ℚ
  positive_highlights : List String
  warnings : List String
  video_calls : ℚ
  streaming : ℚ
  uploads : ℚ
  general_browsing : ℚ
  mentioned_speeds : List ℚ
  average_speed : Option ℚ
  speed_consistency : String
  location_quirks : List String
  time_patterns : List String
  connection_quirks : List String
  business_traveler_notes : List String
  unique_features : List String
  review_count : Nat
deriving DecidableEq, Repr

/-- JS `x || d` for an optional number: a missing value and the falsy
number 0 both yield the default. -/
def jsOrNum (x : Option ℚ) (d : ℚ) : ℚ :=
  match x with
  | some v => if v = 0 then d else v
  | none => d

/-- `Math.max(1, Math.min(5, x))`. -/
def clamp15 (x : ℚ) : ℚ := max 1 (min 5 x)

/-- `Array.isArray(x) ? x.slice(0, n) : []`. -/
def arrClamp (x : Option (List String)) (n : Nat) : List String :=
  match x with
  | some l => l.take n
  | none => []

/-- The speeds mechanically extracted from the input reviews. -/
def extractedSpeeds (reviews : List WiFiReview) : List ℚ :=
  reviews.filterMap (fun r => r.extracted_speed)

/-- The validation block of `processReviews` (`ai-processor.ts`
lines 169–207): every field of the parsed response is independently
clamped, truncated, allow-listed or defaulted. -/
def buildSummary (reviews : List WiFiReview) (a : AIResult) : WiFiSummary :=
  let speeds := extractedSpeeds reviews
  let avgFallback : Option ℚ :=
    if speeds.length ≠ 0 then some (speeds.sum / (speeds.length : ℚ))
    else none
  { hotel_id :=
      match reviews with
      | [] => ""
      | r :: _ => r.hotel_id
    summary := (a.summary).getD ""
    overall_score := clamp15 (jsOrNum a.overall_score 3)
    positive_highlights := arrClamp a.positive_highlights 3
    warnings := arrClamp a.warnings 2
    video_calls :=
      clamp15 (jsOrNum (a.use_case_scores.bind (·.video_calls)) 3)
    streaming :=
      clamp15 (jsOrNum (a.use_case_scores.bind (·.streaming)) 3)
    uploads :=
      clamp15 (jsOrNum (a.use_case_scores.bind (·.uploads)) 3)
    general_browsing :=
      clamp15 (jsOrNum (a.use_case_scores.bind (·.general_browsing)) 4)
    mentioned_speeds :=
      match a.speed_analysis.bind (·.mentioned_speeds) with
      | some l => l
      | none => speeds
    average_speed :=
      match a.speed_analysis.bind (·.average_speed) with
      | some v => if v = 0 then avgFallback else some v
      | none => avgFallback
    speed_consistency :=
      match a.speed_analysis.bind (·.speed_consistency) with
      | some s =>
        if s = "consistent" ∨ s = "variable" ∨ s = "unknown" then s
        else "unknown"
      | none => "unknown"
    location_quirks := arrClamp a.location_quirks 5
    time_patterns := arrClamp a.time_patterns 3
    connection_quirks := arrClamp a.connection_quirks 4
    business_traveler_notes := arrClamp a.business_traveler_notes 4
    unique_features := arrClamp a.unique_features 3
    review_count := reviews.length }

/-- Outcome of one model-call attempt, after the API promise settles:
`empty` is a response whose message content is absent or the empty
string, `malformed` a non-empty content that is not valid JSON,
`parsed` a successfully parsed JSON object. -/
inductive ModelContent where
  | empty : ModelContent
  | malformed : ModelContent
  | parsed : AIResult → ModelContent
deriving DecidableEq, Repr

/-- The `retry(op, 3, 2000)` wrapper from `src/lib/utils.ts` around the
model call: up to three sequential attempts (`none` = the attempt
threw), the first fulfilled attempt wins, exhaustion rethrows. -/
def retryModel (attempts : List (Option ModelContent)) : Option ModelContent :=
  (attempts.take 3).findSome? id

/-- `WiFiReviewProcessor.processReviews`, with the model call abstracted
by the per-attempt outcomes `attempts`.  An empty review list returns
`null` up front.  The entire body sits in one `try`: an empty response
content throws after the retry wrapper, and `JSON.parse` throws on
malformed content — both are caught and converted to `null`.  A parsed
response always builds a summary. -/
def processReviews (reviews : List WiFiReview)
    (attempts : List (Option ModelContent)) : Option WiFiSummary :=
  if reviews = [] then none
  else
    match retryModel attempts with
    | none => none
    | some .empty => none
    | some .malformed => none
    | some (.parsed a) => some (buildSummary reviews a)

/-! ## Review-collection loop (`searchOptimizedWiFiReviews`) -/

/-- Substring test: does `w` occur contiguously in `s`? -/
def containsSub (s w : List Char) : Bool :=
  match s with
  | [] => w.isEmpty
  | _ :: t => w.isPrefixOf s || containsSub t w

/-- The Wi-Fi keyword pre-filter
`/wifi|wi-fi|internet|connectivity|network|broadband|connection|bandwidth|speed|mbps|upload|download/i.test(reviewText)`. -/
def wifiMentionedTest (t : String) : Bool :=
  let s := t.data.map Char.toLower
  [("wifi" : String), "wi-fi", "internet", "connectivity", "network",
    "broadband", "connection", "bandwidth", "speed", "mbps", "upload",
    "download"].any (fun w => containsSub s w.data)

/-- One visible review element, abstracted to the values its
selector-fallback chains would extract. -/
structure PageElem where
  name : String
  text : String
  date : String
  rating : Nat
deriving DecidableEq, Repr

/-- A mock reviews page: `elems i` is the i-th visible review element
(stable across scrolls), `countAfter k` the number of visible elements
after `k` scroll-and-wait cycles. -/
structure MockPage where
  elems : Nat → PageElem
  countAfter : Nat → Nat

/-- The per-element body of the collection loop (`optimized-scraper.ts`
lines 530–666): Wi-Fi keyword pre-filter, minimum length 50, date
window filter (blank dates pass), duplicate check of the raw
`(reviewer_name, review_text)` against the already-stored records, then
push of the sanitized record. -/
def stepElem (now : JsDate) (e : PageElem) (acc : List WiFiReview) :
    List WiFiReview :=
  if wifiMentionedTest e.text = false then acc
  else if e.text.length < 50 then acc
  else if trimList e.date.data ≠ [] ∧
      isReviewWithinYears now e.date 5 = false then acc
  else if acc.any (fun r =>
      r.reviewer_name == e.name && r.review_text == e.text) then acc
  else
    acc ++ [⟨"", sanitizeString e.name, e.rating, sanitizeString e.text,
      sanitizeString e.date, true, extractSpeedFromText e.text⟩]

/-- The inner `for` loop: process `n` elements starting at index `i`,
stopping once `target` reviews are collected. -/
def processCount (now : JsDate) (elems : Nat → PageElem) (target : Nat) :
    Nat → Nat → List WiFiReview → List WiFiReview
  | 0, _, acc => acc
  | n + 1, i, acc =>
    if target ≤ acc.length then acc
    else processCount now elems target n (i + 1) (stepElem now (elems i) acc)

/-- Loop state of `searchOptimizedWiFiReviews`: collected reviews, the
stall counter, the last seen element count, and the number of scrolls
performed so far. -/
structure ScrapeState where
  reviews : List WiFiReview
  scrollAttempts : Nat
  lastReviewCount : Nat
  scrolls : Nat
deriving Repr

/-- One iteration of the `while` loop (`optimized-scraper.ts` lines
501–697): read the current element count, process the new indices, then
either scroll (stall: fewer than `minWiFiReviews = 40` collected and an
unchanged count) or reset the stall counter. -/
def loopIter (now : JsDate) (page : MockPage) (st : ScrapeState) :
    ScrapeState :=
  let current := page.countAfter st.scrolls
  let reviews2 := processCount now page.elems 50
    (current - st.lastReviewCount) st.lastReviewCount st.reviews
  if reviews2.length < 40 ∧ current = st.lastReviewCount then
    { reviews := reviews2, scrollAttempts := st.scrollAttempts + 1,
      lastReviewCount := st.lastReviewCount, scrolls := st.scrolls + 1 }
  else
    { reviews := reviews2, scrollAttempts := 0,
      lastReviewCount := current, scrolls := st.scrolls }

/-- The `while (scrollAttempts < maxScrollAttempts && reviews.length <
targetWiFiReviews)` loop, step-indexed: `none` means the loop is still
running after `fuel` iterations (so `∀ fuel, … = none` is
non-termination), `some reviews` a normal exit. -/
def collectGo (now : JsDate) (page : MockPage) :
    Nat → ScrapeState → Option (List WiFiReview)
  | 0, _ => none
  | fuel + 1, st =>
    if st.scrollAttempts < 30 ∧ st.reviews.length < 50 then
      collectGo now page fuel (loopIter now page st)
    else some st.reviews

/-- `searchOptimizedWiFiReviews` on a mock page, from the initial loop
state. -/
def searchOptimizedWiFiReviews (now : JsDate) (page : MockPage)
    (fuel : Nat) : Option (List WiFiReview) :=
  collectGo now page fuel ⟨[], 0, 0, 0⟩

/-- The deduplication key the spec names: `(reviewerName, bodyText)`. -/
def dedupKey (r : WiFiReview) : String × String :=
  (r.reviewer_name, r.review_text)

/-- A string the sanitizer leaves unchanged. -/
def SanitizeClean (s : String) : Prop := sanitizeString s = s

/-! ## RateLimiter (`src/lib/metadata.ts` lines 135–243)

The numeric type is any linear ordered field: the code's float
arithmetic is run at `ℚ` for concrete evaluation and at `ℝ` when the
delay is integrated over the random draws.  Each `Math.random()` call
is an explicit parameter `r ∈ [0, 1)`.  The `requestHistory` buffer and
`lastRequest` timestamp only feed logging and the elapsed-time
shortcut, not the computed delay, and are not modelled. -/

structure RateLimiter (K : Type) where
  minDelay : K
  maxDelay : K
  successCount : ℕ
  failureCount : ℕ
deriving Repr

variable {K : Type} [LinearOrderedField K]

/-- The constructor: delays are given in seconds and stored in ms. -/
def RateLimiter.init (minDelaySeconds maxDelaySeconds : K) : RateLimiter K :=
  ⟨minDelaySeconds * 1000, maxDelaySeconds * 1000, 0, 0⟩

def RateLimiter.recordSuccess (st : RateLimiter K) : RateLimiter K :=
  { st with successCount := st.successCount + 1 }

def RateLimiter.recordFailure (st : RateLimiter K) : RateLimiter K :=
  { st with failureCount := st.failureCount + 1 }

/-- The success-rate ladder of `calculateAdaptiveDelay`; the base delay
before jitter. -/
def RateLimiter.baseDelay (st : RateLimiter K) : K :=
  if st.successCount + st.failureCount = 0 then st.minDelay
  else
    let successRate : K :=
      (st.successCount : K) / ((st.successCount + st.failureCount : ℕ) : K)
    if successRate > 4 / 5 then st.minDelay
    else if successRate > 3 / 5 then st.minDelay * (6 / 5)
    else if successRate > 2 / 5 then st.minDelay * (3 / 2)
    else st.maxDelay

/-- `baseDelay + jitter` where
`jitter = baseDelay * 0.2 * (Math.random() - 0.5)` — the jittered delay
before clamping. -/
def RateLimiter.jitteredDelay (st : RateLimiter K) (r : K) : K :=
  st.baseDelay + st.baseDelay * (1 / 5) * (r - 1 / 2)

/-- `calculateAdaptiveDelay`:
`Math.max(minDelay * 0.8, Math.min(adaptiveDelay, maxDelay))`. -/
def RateLimiter.calculateAdaptiveDelay (st : RateLimiter K) (r : K) : K :=
  max (st.minDelay * (4 / 5)) (min (st.jitteredDelay r) st.maxDelay)

/-- The overlay multiplier of `generateHumanLikeDelay`: the pattern is
selected by the first cumulative weight at least `r1`
(`random <= cumulativeWeight` with weights 0.3 / 0.5 / 0.2), and the
multiplier is uniform via `r2` inside the pattern's range. -/
def humanMultiplier (r1 r2 : K) : K :=
  if r1 ≤ 3 / 10 then 4 / 5 + r2 * (11 / 10 - 4 / 5)
  else if r1 ≤ 8 / 10 then 1 + r2 * (13 / 10 - 1)
  else 3 / 2 + r2 * (2 - 3 / 2)

/-- `generateHumanLikeDelay`: adaptive delay (fresh draw `r3`) times
the overlay multiplier; the loop's fall-through return (no multiplier)
is only reachable when `r1 > 1`, which a real `Math.random()` draw
never produces. -/
def RateLimiter.generateHumanLikeDelay (st : RateLimiter K)
    (r1 r2 r3 : K) : K :=
  if r1 ≤ 1 then st.calculateAdaptiveDelay r3 * humanMultiplier r1 r2
  else st.calculateAdaptiveDelay r3

/-- Expected value, over the uniform jitter draw, of the clamped
adaptive delay. -/
noncomputable def expectedAdaptiveDelay (st : RateLimiter ℝ) : ℝ :=
  ∫ r in (0:ℝ)..1, st.calculateAdaptiveDelay r

/-- Mean overlay multiplier for a fixed pattern draw `r1`. -/
noncomputable def meanMult (r1 : ℝ) : ℝ :=
  ∫ r2 in (0:ℝ)..1, humanMultiplier r1 r2

/-- Expected value, over the three independent uniform draws, of the
delay `wait()` computes (`generateHumanLikeDelay`). -/
noncomputable def expectedWaitDelay (st : RateLimiter ℝ) : ℝ :=
  ∫ r1 in (0:ℝ)..1, ∫ r2 in (0:ℝ)..1, ∫ r3 in (0:ℝ)..1,
    st.generateHumanLikeDelay r1 r2 r3

/-! ## Concrete inputs used by the theorems -/

/-- A fixed current date (October 12, 2025, local midnight). -/
def nowTest : JsDate := ⟨2025, 9, 12, 0⟩

/-- A qualifying Wi-Fi review text (length 54 ≥ 50). -/
def stallText : String :=
  "wifi was great and the connection stayed fast all week"

/-- A mock page whose visible element count is stuck at 40, with 40
distinct qualifying Wi-Fi reviews: the collection loop gathers all 40
on its first pass and then spins forever (40 ≥ minWiFiReviews keeps the
stall branch unreachable, so `scrollAttempts` is reset every cycle
while no new review ever arrives). -/
def stallPage : MockPage :=
  ⟨fun i => ⟨"n" ++ toString i, stallText, "", 5⟩, fun _ => 40⟩

/-- Review text containing a character the sanitizer strips. -/
def dupText : String :=
  "the wifi @ here was excellent and fast enough for video calls"

/-- Two candidate reviews with identical raw reviewer name and body
text but different date texts; name and text are altered by
`sanitizeString` (the `@` is dropped). -/
def dupPage : MockPage :=
  ⟨fun i => ⟨"@ Bob", dupText, if i == 0 then "a" else "b", 5⟩, fun _ => 2⟩

/-- A sanitizer-clean review text (length ≥ 50, mentions wifi). -/
def cleanText : String :=
  "the wifi here was excellent and fast enough for video calls"

/-- Two candidate reviews with identical sanitizer-clean reviewer name
and body text and different date texts. -/
def cleanPage : MockPage :=
  ⟨fun i => ⟨"Bob", cleanText, if i == 0 then "a" else "b", 5⟩, fun _ => 2⟩

/-- A sample input review for the summary processor. -/
def demoReview : WiFiReview :=
  ⟨"h1", "alice", 5, "great wifi, speed 100 mbps, stable all week", "2 months ago",
    true, some 100⟩

/-- The record list the loop returns on the `dupPage` mock. -/
def dupResult : List WiFiReview :=
  (searchOptimizedWiFiReviews nowTest dupPage 100).getD []

/-- The record list the loop returns on the `cleanPage` mock. -/
def cleanResult : List WiFiReview :=
  (searchOptimizedWiFiReviews nowTest cleanPage 40).getD []

/-! # Theorems -/

/-! ### Helper lemmas: the sanitizer -/

theorem collapseWsGo_ws_true {c : Char} {rest : List Char}
    (hc : isJsSpace c = true) :
    collapseWsGo true (c :: rest) = collapseWsGo true rest := by
  simp only [collapseWsGo, hc, if_true]

theorem collapseWsGo_ws_false {c : Char} {rest : List Char}
    (hc : isJsSpace c = true) :
    collapseWsGo false (c :: rest) = ' ' :: collapseWsGo true rest := by
  simp only [collapseWsGo, hc, if_true, Bool.false_eq_true, if_false]

theorem collapseWsGo_nws {c : Char} {rest : List Char} {b : Bool}
    (hc : isJsSpace c = false) :
    collapseWsGo b (c :: rest) = c :: collapseWsGo false rest := by
  simp only [collapseWsGo, hc, Bool.false_eq_true, if_false]

theorem mem_of_dropWhile {p : Char → Bool} {l : List Char} {c : Char}
    (h : c ∈ l.dropWhile p) : c ∈ l :=
  (List.dropWhile_suffix p).subset h

theorem head?_dropWhile {p : Char → Bool} {l : List Char} {x : Char}
    (h : (l.dropWhile p).head? = some x) : p x = false := by
  induction l with
  | nil => cases h
  | cons d rest ih =>
    rw [List.dropWhile_cons] at h
    cases hd : p d with
    | true => simp only [hd, if_true] at h; exact ih h
    | false =>
      simp only [hd, Bool.false_eq_true, if_false, List.head?_cons,
        Option.some.injEq] at h
      rw [← h]
      exact hd

theorem dropWhile_eq_self_of_head {p : Char → Bool} {l : List Char}
    (h : ∀ x, l.head? = some x → p x = false) : l.dropWhile p = l := by
  cases l with
  | nil => rfl
  | cons d rest =>
    rw [List.dropWhile_cons]
    simp [h d rfl]

theorem mem_trimList {l : List Char} {c : Char} (h : c ∈ trimList l) :
    c ∈ l := by
  unfold trimList at h
  rw [List.mem_reverse] at h
  have h2 := mem_of_dropWhile h
  rw [List.mem_reverse] at h2
  exact mem_of_dropWhile h2

theorem trimList_prefix (l : List Char) :
    trimList l <+: l.dropWhile isJsSpace := by
  have h1 := List.reverse_prefix.mpr
    (List.dropWhile_suffix (l := (l.dropWhile isJsSpace).reverse) isJsSpace)
  rwa [List.reverse_reverse] at h1

theorem trimList_head {l : List Char} {x : Char}
    (h : (trimList l).head? = some x) : isJsSpace x = false := by
  rcases trimList_prefix l with ⟨t, ht⟩
  cases htl : trimList l with
  | nil => rw [htl] at h; cases h
  | cons a b =>
    rw [htl] at h ht
    simp only [List.head?_cons, Option.some.injEq] at h
    have h2 : (l.dropWhile isJsSpace).head? = some a := by
      rw [← ht]; rfl
    rw [← h]
    exact head?_dropWhile h2

theorem trimList_getLast {l : List Char} {x : Char}
    (h : (trimList l).getLast? = some x) : isJsSpace x = false := by
  unfold trimList at h
  rw [List.getLast?_reverse] at h
  exact head?_dropWhile h

theorem collapseWsGo_eq_nil {m : List Char} {b : Bool}
    (h : collapseWsGo b m = []) : ∀ c ∈ m, isJsSpace c = true := by
  induction m generalizing b with
  | nil => intro c hc; cases hc
  | cons c rest ih =>
    intro x hx
    rcases List.mem_cons.mp hx with hx | hx
    · subst hx
      cases hc : isJsSpace x with
      | true => rfl
      | false => rw [collapseWsGo_nws hc] at h; cases h
    · cases hc : isJsSpace c with
      | true =>
        cases b with
        | true =>
          rw [collapseWsGo_ws_true hc] at h
          exact ih h x hx
        | false => rw [collapseWsGo_ws_false hc] at h; cases h
      | false => rw [collapseWsGo_nws hc] at h; cases h

theorem mem_collapseWsGo {m : List Char} {b : Bool} {c : Char}
    (h : c ∈ collapseWsGo b m) : c ∈ m ∨ c = ' ' := by
  induction m generalizing b with
  | nil => cases h
  | cons d rest ih =>
    cases hd : isJsSpace d with
    | true =>
      cases b with
      | true =>
        rw [collapseWsGo_ws_true hd] at h
        rcases ih h with h2 | h2
        · exact Or.inl (List.mem_cons_of_mem _ h2)
        · exact Or.inr h2
      | false =>
        rw [collapseWsGo_ws_false hd] at h
        rcases List.mem_cons.mp h with h2 | h2
        · exact Or.inr h2
        · rcases ih h2 with h3 | h3
          · exact Or.inl (List.mem_cons_of_mem _ h3)
          · exact Or.inr h3
    | false =>
      rw [collapseWsGo_nws hd] at h
      rcases List.mem_cons.mp h with h2 | h2
      · exact Or.inl (by simp [h2])
      · rcases ih h2 with h3 | h3
        · exact Or.inl (List.mem_cons_of_mem _ h3)
        · exact Or.inr h3

theorem collapseWsGo_idem (m : List Char) :
    ∀ b, collapseWsGo b (collapseWsGo b m) = collapseWsGo b m := by
  induction m with
  | nil => intro b; rfl
  | cons c rest ih =>
    intro b
    cases hc : isJsSpace c with
    | true =>
      cases b with
      | true =>
        rw [collapseWsGo_ws_true hc]
        exact ih true
      | false =>
        rw [collapseWsGo_ws_false hc,
          collapseWsGo_ws_false (show isJsSpace ' ' = true by decide)]
        exact congrArg (' ' :: ·) (ih true)
    | false =>
      rw [collapseWsGo_nws hc, collapseWsGo_nws hc]
      exact congrArg (c :: ·) (ih false)

theorem collapseWsGo_head {m : List Char} {b : Bool} {y : Char}
    (hm : ∀ x, m.head? = some x → isJsSpace x = false)
    (h : (collapseWsGo b m).head? = some y) : isJsSpace y = false := by
  cases m with
  | nil => cases h
  | cons c rest =>
    have hc := hm c rfl
    rw [collapseWsGo_nws hc] at h
    simp only [List.head?_cons, Option.some.injEq] at h
    rw [← h]
    exact hc

theorem collapseWsGo_getLast {m : List Char} {y : Char}
    (hm : ∀ x, m.getLast? = some x → isJsSpace x = false) :
    ∀ b, (collapseWsGo b m).getLast? = some y → isJsSpace y = false := by
  induction m with
  | nil => intro b h; cases h
  | cons c rest ih =>
    intro b h
    cases rest with
    | nil =>
      have hc := hm c rfl
      rw [collapseWsGo_nws hc] at h
      simp only [collapseWsGo, List.getLast?_singleton, Option.some.injEq] at h
      rw [← h]
      exact hc
    | cons d rest2 =>
      have hm2 : ∀ x, (d :: rest2).getLast? = some x → isJsSpace x = false := by
        intro x hx
        apply hm
        rw [List.getLast?_cons_cons]
        exact hx
      have hnonnil : ∀ b2, collapseWsGo b2 (d :: rest2) = [] → False := by
        intro b2 hnil
        have hall := collapseWsGo_eq_nil hnil
        have hlast := List.getLast?_eq_getLast (d :: rest2) (by simp)
        have hmem := List.getLast_mem (l := d :: rest2) (by simp)
        have hws := hm2 _ hlast
        rw [hall _ hmem] at hws
        cases hws
      cases hc : isJsSpace c with
      | true =>
        cases b with
        | true =>
          rw [collapseWsGo_ws_true hc] at h
          exact ih hm2 true h
        | false =>
          rw [collapseWsGo_ws_false hc] at h
          rcases hnil : collapseWsGo true (d :: rest2) with _ | ⟨a, t⟩
          · exact absurd hnil (fun hx => hnonnil true hx)
          · rw [hnil, List.getLast?_cons_cons, ← hnil] at h
            exact ih hm2 true h
      | false =>
        rw [collapseWsGo_nws hc] at h
        rcases hnil : collapseWsGo false (d :: rest2) with _ | ⟨a, t⟩
        · exact absurd hnil (fun hx => hnonnil false hx)
        · rw [hnil, List.getLast?_cons_cons, ← hnil] at h
          exact ih hm2 false h

theorem trimList_eq_self {u : List Char}
    (hh : ∀ x, u.head? = some x → isJsSpace x = false)
    (hl : ∀ x, u.getLast? = some x → isJsSpace x = false) :
    trimList u = u := by
  unfold trimList
  rw [dropWhile_eq_self_of_head hh]
  rw [dropWhile_eq_self_of_head (fun x hx => by
    rw [List.head?_reverse] at hx
    exact hl x hx)]
  exact u.reverse_reverse

/-- C10 (counterexample): `sanitizeString` is not idempotent.  On
`"@ hello"` the first pass strips the `@` after trimming and leaves a
leading space, which only the second pass removes. -/
theorem sanitizeString_not_idempotent :
    sanitizeString (sanitizeString ("@ hello")) ≠ sanitizeString ("@ hello") := by
  decide

/-- C10 (amended): `sanitizeString` is idempotent on every string all
of whose characters survive the character filter (word characters,
whitespace and the allowed punctuation); on such strings the stored
`reviewerName` and `bodyText` are fixed points of the sanitizer.  (In
general idempotence fails: removing a filtered character can expose
leading, trailing or doubled whitespace, as in `"@ hello"`.) -/
theorem sanitizeString_idem_of_allowed (s : String)
    (h : ∀ c ∈ s.data, isAllowedChar c = true) :
    sanitizeString (sanitizeString s) = sanitizeString s := by
  have hu : ∀ c ∈ collapseWsGo false (trimList s.data), isAllowedChar c = true := by
    intro c hc
    rcases mem_collapseWsGo hc with h2 | h2
    · exact h c (mem_trimList h2)
    · rw [h2]; decide
  have h1 : sanitizeString s = String.mk (collapseWsGo false (trimList s.data)) := by
    unfold sanitizeString
    rw [List.filter_eq_self.mpr hu]
  rw [h1]
  unfold sanitizeString
  have hdata : (String.mk (collapseWsGo false (trimList s.data))).data =
      collapseWsGo false (trimList s.data) := rfl
  rw [hdata]
  have htrim : trimList (collapseWsGo false (trimList s.data)) =
      collapseWsGo false (trimList s.data) := by
    apply trimList_eq_self
    · intro x hx
      exact collapseWsGo_head (fun y hy => trimList_head hy) hx
    · intro x hx
      exact collapseWsGo_getLast (fun y hy => trimList_getLast hy) false hx
  rw [htrim, collapseWsGo_idem (trimList s.data) false,
    List.filter_eq_self.mpr hu]

/-- C10 witness: the amended idempotence law applied to the clean
string `"ab cd"`. -/
theorem sanitizeString_idem_of_allowed_witness :
    (∀ c ∈ ("ab cd" : String).data, isAllowedChar c = true) ∧
      sanitizeString (sanitizeString ("ab cd")) = sanitizeString ("ab cd") :=
  ⟨by decide, sanitizeString_idem_of_allowed ("ab cd") (by decide)⟩

/-! ### Summary validation (C5, C1) -/

theorem clamp15_bounds (x : ℚ) : 1 ≤ clamp15 x ∧ clamp15 x ≤ 5 :=
  ⟨le_max_left 1 _, max_le (by norm_num) (min_le_left 5 x)⟩

theorem arrClamp_length (x : Option (List String)) (n : Nat) :
    (arrClamp x n).length ≤ n := by
  cases x with
  | none => exact Nat.zero_le n
  | some l =>
    simp only [arrClamp, List.length_take]
    exact min_le_left n l.length

/-- C5 (counterexample): the documented default for missing score
fields is 3, but a response with no `use_case_scores` yields
`general_browsing = 4`, not 3. -/
theorem buildSummary_general_browsing_default :
    (buildSummary [demoReview] ({} : AIResult)).general_browsing = 4 ∧
      ((4 : ℚ) ≠ 3) := by
  constructor
  · rfl
  · norm_num

/-- C5 (amended): every numeric score of the built summary is clamped
into `[1, 5]` (`overall_score = 9` becomes 5); every array field with a
documented maximum is truncated to it (7 highlights become 3); an
out-of-allow-list consistency string falls back to `"unknown"`; and a
response with every field missing falls back to the defaults — score 3
for overall and for the video-calls / streaming / uploads use cases but
4 for general browsing, `"unknown"` consistency, and empty lists —
rather than failing the record. -/
theorem buildSummary_validates (reviews : List WiFiReview) (a : AIResult) :
    (1 ≤ (buildSummary reviews a).overall_score ∧
      (buildSummary reviews a).overall_score ≤ 5) ∧
    (1 ≤ (buildSummary reviews a).video_calls ∧
      (buildSummary reviews a).video_calls ≤ 5) ∧
    (1 ≤ (buildSummary reviews a).streaming ∧
      (buildSummary reviews a).streaming ≤ 5) ∧
    (1 ≤ (buildSummary reviews a).uploads ∧
      (buildSummary reviews a).uploads ≤ 5) ∧
    (1 ≤ (buildSummary reviews a).general_browsing ∧
      (buildSummary reviews a).general_browsing ≤ 5) ∧
    (buildSummary reviews a).positive_highlights.length ≤ 3 ∧
    (buildSummary reviews a).warnings.length ≤ 2 ∧
    (buildSummary reviews a).location_quirks.length ≤ 5 ∧
    (buildSummary reviews a).time_patterns.length ≤ 3 ∧
    (buildSummary reviews a).connection_quirks.length ≤ 4 ∧
    (buildSummary reviews a).business_traveler_notes.length ≤ 4 ∧
    (buildSummary reviews a).unique_features.length ≤ 3 ∧
    ((buildSummary reviews a).speed_consistency = "consistent" ∨
      (buildSummary reviews a).speed_consistency = "variable" ∨
      (buildSummary reviews a).speed_consistency = "unknown") ∧
    (buildSummary [demoReview] { overall_score := some 9 }).overall_score = 5 ∧
    (buildSummary [demoReview]
        { positive_highlights :=
            some ["a", "b", "c", "d", "e", "f", "g"] }).positive_highlights =
      ["a", "b", "c"] ∧
    (buildSummary [demoReview]
        { speed_analysis :=
            some { speed_consistency := some "blazing" } }).speed_consistency =
      "unknown" ∧
    (buildSummary [demoReview] ({} : AIResult)).overall_score = 3 ∧
    (buildSummary [demoReview] ({} : AIResult)).video_calls = 3 ∧
    (buildSummary [demoReview] ({} : AIResult)).streaming = 3 ∧
    (buildSummary [demoReview] ({} : AIResult)).uploads = 3 ∧
    (buildSummary [demoReview] ({} : AIResult)).general_browsing = 4 ∧
    (buildSummary [demoReview] ({} : AIResult)).speed_consistency = "unknown" ∧
    (buildSummary [demoReview] ({} : AIResult)).warnings = [] ∧
    (buildSummary [demoReview] ({} : AIResult)).location_quirks = [] := by
  refine ⟨clamp15_bounds _, clamp15_bounds _, clamp15_bounds _,
    clamp15_bounds _, clamp15_bounds _,
    arrClamp_length _ _, arrClamp_length _ _, arrClamp_length _ _,
    arrClamp_length _ _, arrClamp_length _ _, arrClamp_length _ _,
    arrClamp_length _ _, ?_, by decide, by decide, by decide, by decide,
    by decide, by decide, by decide, by decide, by decide, by decide,
    by decide⟩
  unfold buildSummary
  cases hsa : a.speed_analysis.bind (fun sa => sa.speed_consistency) with
  | none => right; right; rfl
  | some s =>
    simp only [hsa]
    by_cases hs : s = "consistent" ∨ s = "variable" ∨ s = "unknown"
    · rcases hs with hs | hs | hs
      · left; simp [hs]
      · right; left; simp [hs]
      · right; right; simp [hs]
    · right; right; simp [hs]

/-- C1 (counterexample): a response that is received but is not valid
JSON makes `processReviews` return null, although the review list is
non-empty and the model call succeeded on its first attempt (the retry
budget is not exhausted). -/
theorem processReviews_nonJson_null :
    processReviews [demoReview] [some .malformed] = none ∧
      ¬(([demoReview] : List WiFiReview) = [] ∨
        retryModel [some .malformed] = none) := by
  constructor
  · rfl
  · intro h
    rcases h with h | h
    · cases h
    · cases h

/-- C1 (amended): `processReviews` returns null exactly when the review
list is empty, or every attempt within the 3-attempt retry budget
fails, or the first fulfilled response has empty content, or its
content is not valid JSON.  A successfully parsed response — however
badly it violates the schema — always yields the clamped/defaulted
summary record. -/
theorem processReviews_null_iff (reviews : List WiFiReview)
    (attempts : List (Option ModelContent)) :
    (processReviews reviews attempts = none ↔
      reviews = [] ∨ retryModel attempts = none ∨
        retryModel attempts = some .empty ∨
        retryModel attempts = some .malformed) ∧
    (∀ a : AIResult, retryModel attempts = some (.parsed a) →
      reviews ≠ [] →
      processReviews reviews attempts = some (buildSummary reviews a)) := by
  constructor
  · by_cases hr : reviews = []
    · simp [processReviews, hr]
    · unfold processReviews
      cases hm : retryModel attempts with
      | none => simp [hr, hm]
      | some c =>
        cases c with
        | empty => simp [hr, hm]
        | malformed => simp [hr, hm]
        | parsed a => simp [hr, hm]
  · intro a hm hr
    unfold processReviews
    simp [hr, hm]

/-- C1 witness: a non-empty review list with a first-attempt parsed
response yields a summary record. -/
theorem processReviews_null_iff_witness :
    processReviews [demoReview] [some (.parsed {})] =
      some (buildSummary [demoReview] ({} : AIResult)) :=
  (processReviews_null_iff [demoReview] [some (.parsed {})]).2 {} rfl
    (by decide)


/-! ### Speed extraction (C3) -/

/-- C3 (counterexample): on `"20-30 Mbps"` the extractor returns the
upper bound 30, not the claimed lower bound 20 — the direct-unit
pattern finds the leftmost unit-adjacent number (`"30 Mbps"`) before
the range pattern is ever tried. -/
theorem extractSpeed_range_upper_bound :
    extractSpeedFromText ("20-30 Mbps") = some 30 ∧
      extractSpeedFromText ("20-30 Mbps") ≠ some 20 := by
  constructor
  · with_unfolding_all decide
  · with_unfolding_all decide

/-- C3 (amended): the extractor tries its five patterns in order with
the first in-range match winning — in particular an in-range capture of
the first (direct unit) pattern is always the result; it returns 150
for "Got around 150 Mbps download speed" and null for
"room 150 on floor 2", but 30 (the upper bound) for "20-30 Mbps",
because the direct-unit pattern matches the range's second number
first. -/
theorem extractSpeed_results :
    extractSpeedFromText ("Got around 150 Mbps download speed") = some 150 ∧
    extractSpeedFromText ("20-30 Mbps") = some 30 ∧
    extractSpeedFromText ("room 150 on floor 2") = none ∧
    (∀ (s : List Char) (e a b : Nat),
      firstMatch speedPat1 s = some (e, some (a, b)) →
      0 < parseDecimal ((s.drop a).take (b - a)) →
      parseDecimal ((s.drop a).take (b - a)) ≤ 10000 →
      extractSpeedGo speedPatterns s =
        some (parseDecimal ((s.drop a).take (b - a)))) := by
  refine ⟨by with_unfolding_all decide, by with_unfolding_all decide,
    by with_unfolding_all decide, ?_⟩
  intro s e a b hm h0 h1
  unfold speedPatterns extractSpeedGo
  rw [hm]
  simp only [h0, h1, and_self, if_true]

/-- C3 witness: the first-pattern clause applied to `"9 mbps"`. -/
theorem extractSpeed_results_witness :
    extractSpeedGo speedPatterns (("9 mbps").data) = some 9 := by
  have h := extractSpeed_results.2.2.2 (("9 mbps").data) 6 0 1
    (by decide) (by with_unfolding_all decide) (by with_unfolding_all decide)
  have h2 : parseDecimal (((("9 mbps").data).drop 0).take 1) = 9 := by
    with_unfolding_all decide
  rw [h2] at h
  exact h

/-! ### Date window (C4) -/

theorem setFullYear_year (d : JsDate) (y : Int) : (setFullYear d y).year = y := by
  unfold setFullYear
  split <;> rfl

theorem dateLe_false_of_year_lt {a b : JsDate} (h : b.year < a.year) :
    dateLe a b = false := by
  unfold dateLe
  rw [if_pos (by omega : a.year ≠ b.year)]
  exact decide_eq_false (by omega)

theorem dateLe_true_of_year_lt {a b : JsDate} (h : a.year < b.year) :
    dateLe a b = true := by
  unfold dateLe
  rw [if_pos (by omega : a.year ≠ b.year)]
  exact decide_eq_true (by omega)

/-- C4 (confirmed): for every current date, "6 years ago" fails the
5-year window, "2 years ago" passes it, the empty (unparseable) date
text passes — and in general any text the parser cannot resolve passes
(the conservative default) — and "2019" fails whenever "now" is in year
2025 or later. -/
theorem isReviewWithinYears_spec (now : JsDate) :
    isReviewWithinYears now ("6 years ago") 5 = false ∧
    isReviewWithinYears now ("2 years ago") 5 = true ∧
    isReviewWithinYears now ("") 5 = true ∧
    (∀ (txt : String) (y : Nat), parseGoogleMapsDate now txt = none →
      isReviewWithinYears now txt y = true) ∧
    (2025 ≤ now.year → isReviewWithinYears now ("2019") 5 = false) := by
  refine ⟨?_, ?_, rfl, ?_, ?_⟩
  · show dateLe (setFullYear now (now.year - 5))
      (setFullYear now (now.year - 6)) = false
    apply dateLe_false_of_year_lt
    rw [setFullYear_year, setFullYear_year]
    omega
  · show dateLe (setFullYear now (now.year - 5))
      (setFullYear now (now.year - 2)) = true
    apply dateLe_true_of_year_lt
    rw [setFullYear_year, setFullYear_year]
    omega
  · intro txt y h
    unfold isReviewWithinYears
    rw [h]
  · intro h
    show dateLe (setFullYear now (now.year - 5)) ⟨2019, 11, 31, 0⟩ = false
    apply dateLe_false_of_year_lt
    rw [setFullYear_year]
    show (2019 : Int) < now.year - 5
    omega

/-- C4 witness: the window checks at the concrete date
October 12, 2025, and the unparseable text "hello world". -/
theorem isReviewWithinYears_spec_witness :
    isReviewWithinYears nowTest ("6 years ago") 5 = false ∧
      isReviewWithinYears nowTest ("hello world") 5 = true ∧
      isReviewWithinYears nowTest ("2019") 5 = false :=
  ⟨(isReviewWithinYears_spec nowTest).1,
    (isReviewWithinYears_spec nowTest).2.2.2.1 ("hello world") 5 rfl,
    (isReviewWithinYears_spec nowTest).2.2.2.2 (by norm_num [nowTest])⟩

/-! ### RateLimiter jitter and overlay (C8) -/

theorem baseDelay_pos (st : RateLimiter ℚ) (hmin : 0 < st.minDelay)
    (hle : st.minDelay ≤ st.maxDelay) : 0 < st.baseDelay := by
  unfold RateLimiter.baseDelay
  dsimp only
  split_ifs <;> nlinarith

/-- C8: the adaptive delay's jitter is ±10 %, not the ±20 % the code
comments and the spec state: for every state with positive delays and
every draw `r ∈ [0, 1)` the pre-clamp jittered delay lies in
`[0.9·base, 1.1·base)` — on a fresh `RateLimiter(6, 12)` it is 5400 ms
at `r = 0` against a base of 6000 ms, never reaching `0.8·base = 4800`.
The human-timing overlay, by contrast, is as documented: multiplier in
`[0.8, 1.1)` when the pattern draw falls in the 30 % band `r1 ≤ 0.3`,
in `[1.0, 1.3)` in the 50 % band `0.3 < r1 ≤ 0.8`, and in `[1.5, 2.0)`
in the 20 % band `r1 > 0.8`. -/
theorem rateLimiter_jitter_overlay (st : RateLimiter ℚ)
    (hmin : 0 < st.minDelay) (hle : st.minDelay ≤ st.maxDelay) :
    (∀ r : ℚ, 0 ≤ r → r < 1 →
      (9 / 10) * st.baseDelay ≤ st.jitteredDelay r ∧
        st.jitteredDelay r < (11 / 10) * st.baseDelay) ∧
    ((RateLimiter.init (6 : ℚ) 12).jitteredDelay 0 = 5400 ∧
      (RateLimiter.init (6 : ℚ) 12).baseDelay = 6000) ∧
    (∀ r1 r2 : ℚ, 0 ≤ r2 → r2 < 1 →
      (r1 ≤ 3 / 10 →
        8 / 10 ≤ humanMultiplier r1 r2 ∧ humanMultiplier r1 r2 < 11 / 10) ∧
      (3 / 10 < r1 → r1 ≤ 8 / 10 →
        1 ≤ humanMultiplier r1 r2 ∧ humanMultiplier r1 r2 < 13 / 10) ∧
      (8 / 10 < r1 →
        3 / 2 ≤ humanMultiplier r1 r2 ∧ humanMultiplier r1 r2 < 2)) := by
  have hb := baseDelay_pos st hmin hle
  refine ⟨?_, ⟨?_, ?_⟩, ?_⟩
  · intro r h0 h1
    unfold RateLimiter.jitteredDelay
    constructor <;> nlinarith
  · show (6 : ℚ) * 1000 + 6 * 1000 * (1 / 5) * (0 - 1 / 2) = 5400
    norm_num
  · show (6 : ℚ) * 1000 = 6000
    norm_num
  · intro r1 r2 h0 h1
    refine ⟨?_, ?_, ?_⟩
    · intro hr1
      unfold humanMultiplier
      rw [if_pos hr1]
      constructor <;> nlinarith
    · intro hr1 hr2
      unfold humanMultiplier
      rw [if_neg (by linarith), if_pos hr2]
      constructor <;> nlinarith
    · intro hr1
      unfold humanMultiplier
      rw [if_neg (by linarith), if_neg (by linarith)]
      constructor <;> nlinarith

/-- C8 witness: the jitter bound and the 30 %-band overlay bound, both
on a fresh `RateLimiter(6, 12)` at concrete draws. -/
theorem rateLimiter_jitter_overlay_witness :
    ((9 / 10) * (RateLimiter.init (6 : ℚ) 12).baseDelay ≤
        (RateLimiter.init (6 : ℚ) 12).jitteredDelay 0 ∧
      (RateLimiter.init (6 : ℚ) 12).jitteredDelay 0 <
        (11 / 10) * (RateLimiter.init (6 : ℚ) 12).baseDelay) ∧
    (8 / 10 ≤ humanMultiplier (1 / 10 : ℚ) (1 / 2) ∧
      humanMultiplier (1 / 10 : ℚ) (1 / 2) < 11 / 10) := by
  have h := rateLimiter_jitter_overlay (RateLimiter.init (6 : ℚ) 12)
    (by norm_num [RateLimiter.init]) (by norm_num [RateLimiter.init])
  exact ⟨h.1 0 le_rfl (by norm_num),
    (h.2.2 (1 / 10) (1 / 2) (by norm_num) (by norm_num)).1 (by norm_num)⟩

/-! ### Collection loop: termination and dedup (C2, C7) -/

theorem processCount_zero (now : JsDate) (elems : Nat → PageElem)
    (target i : Nat) (acc : List WiFiReview) :
    processCount now elems target 0 i acc = acc := rfl

/-- A loop state with an unchanged element count, at least 40 collected
reviews and a zero stall counter is a fixed point of the loop body: the
stall branch is unreachable (`reviews.length < minWiFiReviews` fails)
and the else branch resets the stall counter and re-reads the same
element count. -/
theorem loopIter_fixed {now : JsDate} {page : MockPage} {st : ScrapeState}
    (hcount : page.countAfter st.scrolls = st.lastReviewCount)
    (hmin : 40 ≤ st.reviews.length) (hatt : st.scrollAttempts = 0) :
    loopIter now page st = st := by
  obtain ⟨revs, att, last, scr⟩ := st
  simp only at hcount hmin hatt
  subst hatt
  unfold loopIter
  rw [hcount]
  dsimp only
  rw [Nat.sub_self, processCount_zero]
  rw [if_neg (by omega : ¬(revs.length < 40 ∧ last = last))]

theorem collectGo_none_of_fixed {now : JsDate} {page : MockPage}
    {st : ScrapeState} (hfix : loopIter now page st = st)
    (hguard : st.scrollAttempts < 30 ∧ st.reviews.length < 50) :
    ∀ fuel, collectGo now page fuel st = none := by
  intro fuel
  induction fuel with
  | zero => rfl
  | succ n ih =>
    unfold collectGo
    rw [if_pos hguard, hfix]
    exact ih

/-- C2: the collection loop does not terminate on a mock page whose
count never increases once the collected Wi-Fi reviews reach the
40-review minimum while staying below the 50-review target: on
`stallPage` (constant 40 visible elements, all qualifying and
distinct) the loop collects 40 reviews in its first pass and then
cycles forever, because the `reviews.length < minWiFiReviews` guard
keeps the stall branch unreachable and `scrollAttempts` is reset to 0
on every iteration.  `none` for every fuel is non-termination of the
step-indexed loop. -/
theorem collection_loop_diverges :
    ∀ fuel : Nat, searchOptimizedWiFiReviews nowTest stallPage fuel = none := by
  have hst1 : (loopIter nowTest stallPage ⟨[], 0, 0, 0⟩).reviews.length = 40 ∧
      (loopIter nowTest stallPage ⟨[], 0, 0, 0⟩).lastReviewCount = 40 ∧
      (loopIter nowTest stallPage ⟨[], 0, 0, 0⟩).scrollAttempts = 0 ∧
      (loopIter nowTest stallPage ⟨[], 0, 0, 0⟩).scrolls = 0 := by
    with_unfolding_all decide
  intro fuel
  cases fuel with
  | zero => rfl
  | succ n =>
    unfold searchOptimizedWiFiReviews collectGo
    rw [if_pos (by constructor <;> norm_num)]
    apply collectGo_none_of_fixed
    · apply loopIter_fixed
      · exact (show stallPage.countAfter
            (loopIter nowTest stallPage ⟨[], 0, 0, 0⟩).scrolls = 40 from
          rfl).trans hst1.2.1.symm
      · rw [hst1.1]
      · exact hst1.2.2.1
    · refine ⟨?_, ?_⟩
      · rw [hst1.2.2.1]
        norm_num
      · rw [hst1.1]
        norm_num

/-- C7 (counterexample): on `dupPage` — two candidates with identical
raw reviewer name and body text but different date texts, where the
sanitizer alters name and text — the output contains TWO records, not
one, and their `(reviewerName, bodyText)` keys coincide: the duplicate
check compares the raw candidate fields against the already-sanitized
stored fields, so both candidates are pushed. -/
theorem dedup_duplicate_records :
    dupResult.length = 2 ∧
      ¬(dupResult.map dedupKey).Nodup ∧
      dupResult.map (fun r => r.review_date) = [("a" : String), "b"] :=
  ⟨by with_unfolding_all decide, by with_unfolding_all decide,
    by with_unfolding_all decide⟩

theorem stepElem_pairwise {now : JsDate} {e : PageElem}
    {acc : List WiFiReview}
    (hn : sanitizeString e.name = e.name)
    (ht : sanitizeString e.text = e.text)
    (hacc : acc.Pairwise (fun r1 r2 => dedupKey r1 ≠ dedupKey r2)) :
    (stepElem now e acc).Pairwise (fun r1 r2 => dedupKey r1 ≠ dedupKey r2) := by
  unfold stepElem
  split_ifs with h1 h2 h3 h4
  · exact hacc
  · exact hacc
  · exact hacc
  · exact hacc
  · rw [List.pairwise_append]
    refine ⟨hacc, List.pairwise_singleton _ _, ?_⟩
    intro r hr rec hrec
    rw [List.mem_singleton] at hrec
    subst hrec
    have h5 : ∀ r2 ∈ acc,
        ¬(r2.reviewer_name = e.name ∧ r2.review_text = e.text) := by
      intro r2 hrm hcontra
      apply h4
      rw [List.any_eq_true]
      refine ⟨r2, hrm, ?_⟩
      rw [Bool.and_eq_true, beq_iff_eq, beq_iff_eq]
      exact hcontra
    intro heq
    have hfst : r.reviewer_name = sanitizeString e.name :=
      congrArg Prod.fst heq
    have hsnd : r.review_text = sanitizeString e.text :=
      congrArg Prod.snd heq
    rw [hn] at hfst
    rw [ht] at hsnd
    exact h5 r hr ⟨hfst, hsnd⟩

theorem processCount_pairwise {now : JsDate} {elems : Nat → PageElem}
    (hclean : ∀ i, sanitizeString (elems i).name = (elems i).name ∧
      sanitizeString (elems i).text = (elems i).text)
    (target : Nat) :
    ∀ (n i : Nat) (acc : List WiFiReview),
      acc.Pairwise (fun r1 r2 => dedupKey r1 ≠ dedupKey r2) →
      (processCount now elems target n i acc).Pairwise
        (fun r1 r2 => dedupKey r1 ≠ dedupKey r2) := by
  intro n
  induction n with
  | zero => intro i acc hacc; exact hacc
  | succ m ih =>
    intro i acc hacc
    unfold processCount
    split
    · exact hacc
    · exact ih (i + 1) _ (stepElem_pairwise (hclean i).1 (hclean i).2 hacc)

theorem loopIter_pairwise {now : JsDate} {page : MockPage}
    (hclean : ∀ i, sanitizeString (page.elems i).name = (page.elems i).name ∧
      sanitizeString (page.elems i).text = (page.elems i).text)
    {st : ScrapeState}
    (hst : st.reviews.Pairwise (fun r1 r2 => dedupKey r1 ≠ dedupKey r2)) :
    (loopIter now page st).reviews.Pairwise
      (fun r1 r2 => dedupKey r1 ≠ dedupKey r2) := by
  unfold loopIter
  dsimp only
  split
  · exact processCount_pairwise hclean 50 _ _ _ hst
  · exact processCount_pairwise hclean 50 _ _ _ hst

theorem collectGo_pairwise {now : JsDate} {page : MockPage}
    (hclean : ∀ i, sanitizeString (page.elems i).name = (page.elems i).name ∧
      sanitizeString (page.elems i).text = (page.elems i).text) :
    ∀ (fuel : Nat) (st : ScrapeState),
      st.reviews.Pairwise (fun r1 r2 => dedupKey r1 ≠ dedupKey r2) →
      ∀ res, collectGo now page fuel st = some res →
        res.Pairwise (fun r1 r2 => dedupKey r1 ≠ dedupKey r2) := by
  intro fuel
  induction fuel with
  | zero => intro st hst res h; cases h
  | succ n ih =>
    intro st hst res h
    unfold collectGo at h
    split at h
    · exact ih _ (loopIter_pairwise hclean hst) res h
    · rw [Option.some.injEq] at h
      rw [← h]
      exact hst

/-- C7 (amended): the duplicate check compares the raw candidate
`(reviewer_name, review_text)` against the already-sanitized stored
records, so the documented invariant holds exactly for candidates whose
name and body text are fixed points of `sanitizeString`: for any page
all of whose elements are sanitizer-clean, no two output records share
the `(reviewerName, bodyText)` key, and two clean candidates with the
same key and differing date texts yield exactly one record.  (When
sanitization alters a candidate, duplicates slip through — see the
counterexample.) -/
theorem collect_dedup_invariant :
    (∀ (now : JsDate) (page : MockPage),
      (∀ i, sanitizeString (page.elems i).name = (page.elems i).name ∧
        sanitizeString (page.elems i).text = (page.elems i).text) →
      ∀ (fuel : Nat) (res : List WiFiReview),
        searchOptimizedWiFiReviews now page fuel = some res →
        res.Pairwise (fun r1 r2 => dedupKey r1 ≠ dedupKey r2)) ∧
    cleanResult.length = 1 ∧
    searchOptimizedWiFiReviews nowTest cleanPage 40 = some cleanResult := by
  refine ⟨?_, by with_unfolding_all decide, by with_unfolding_all decide⟩
  intro now page hclean fuel res h
  exact collectGo_pairwise hclean fuel _ (List.Pairwise.nil) res h

/-- C7 witness: the invariant applied to the concrete clean two-candidate
page. -/
theorem collect_dedup_invariant_witness :
    cleanResult.Pairwise (fun r1 r2 => dedupKey r1 ≠ dedupKey r2) :=
  collect_dedup_invariant.1 nowTest cleanPage
    (fun _ =>
      ⟨(by with_unfolding_all decide : sanitizeString ("Bob") = "Bob"),
        (by with_unfolding_all decide : sanitizeString cleanText = cleanText)⟩)
    40 cleanResult collect_dedup_invariant.2.2

/-! ### Expected delays (C9) -/

theorem integral_affine (a b : ℝ) :
    ∫ x in (0:ℝ)..1, (a + x * b) = a + b / 2 := by
  have hc : Continuous (fun x : ℝ => x * b) := by fun_prop
  rw [intervalIntegral.integral_add intervalIntegrable_const
    (hc.intervalIntegrable _ _)]
  rw [intervalIntegral.integral_const]
  rw [intervalIntegral.integral_mul_const, integral_id]
  norm_num
  ring

theorem meanMult_eq (r1 : ℝ) :
    meanMult r1 =
      if r1 ≤ 3 / 10 then (19 / 20 : ℝ)
      else if r1 ≤ 8 / 10 then 23 / 20 else 7 / 4 := by
  unfold meanMult humanMultiplier
  split_ifs with h1 h2
  · rw [integral_affine]; norm_num
  · rw [integral_affine]; norm_num
  · rw [integral_affine]; norm_num

theorem integral_meanMult : ∫ r1 in (0:ℝ)..1, meanMult r1 = 121 / 100 := by
  rw [intervalIntegral.integral_congr
    (g := fun r1 => if r1 ≤ 3 / 10 then (19 / 20 : ℝ)
      else if r1 ≤ 8 / 10 then 23 / 20 else 7 / 4)
    (fun x _ => meanMult_eq x)]
  have m1 : IntervalIntegrable
      (fun r1 : ℝ => if r1 ≤ 3 / 10 then (19 / 20 : ℝ)
        else if r1 ≤ 8 / 10 then 23 / 20 else 7 / 4) MeasureTheory.volume 0 (3 / 10) := by
    rw [intervalIntegrable_iff_integrableOn_Ioc_of_le (by norm_num)]
    refine MeasureTheory.IntegrableOn.congr_fun
      (f := fun _ => (19 / 20 : ℝ)) ?_ ?_ measurableSet_Ioc
    · exact MeasureTheory.integrableOn_const.mpr
        (Or.inr measure_Ioc_lt_top)
    · intro x hx
      simp [hx.2]
  have m2 : IntervalIntegrable
      (fun r1 : ℝ => if r1 ≤ 3 / 10 then (19 / 20 : ℝ)
        else if r1 ≤ 8 / 10 then 23 / 20 else 7 / 4) MeasureTheory.volume (3 / 10) (8 / 10) := by
    rw [intervalIntegrable_iff_integrableOn_Ioc_of_le (by norm_num)]
    refine MeasureTheory.IntegrableOn.congr_fun
      (f := fun _ => (23 / 20 : ℝ)) ?_ ?_ measurableSet_Ioc
    · exact MeasureTheory.integrableOn_const.mpr
        (Or.inr measure_Ioc_lt_top)
    · intro x hx
      simp [not_le.mpr hx.1, hx.2]
  have m3 : IntervalIntegrable
      (fun r1 : ℝ => if r1 ≤ 3 / 10 then (19 / 20 : ℝ)
        else if r1 ≤ 8 / 10 then 23 / 20 else 7 / 4) MeasureTheory.volume (8 / 10) 1 := by
    rw [intervalIntegrable_iff_integrableOn_Ioc_of_le (by norm_num)]
    refine MeasureTheory.IntegrableOn.congr_fun
      (f := fun _ => (7 / 4 : ℝ)) ?_ ?_ measurableSet_Ioc
    · exact MeasureTheory.integrableOn_const.mpr
        (Or.inr measure_Ioc_lt_top)
    · intro x hx
      have hx1 : ¬x ≤ 3 / 10 := by
        have := hx.1
        intro h
        linarith
      have hx2 : ¬x ≤ 8 / 10 := not_le.mpr hx.1
      simp [hx1, hx2]
  have v1 : ∫ r1 in (0:ℝ)..(3 / 10),
      (if r1 ≤ 3 / 10 then (19 / 20 : ℝ)
        else if r1 ≤ 8 / 10 then 23 / 20 else 7 / 4) = (3 / 10) * (19 / 20) := by
    rw [intervalIntegral.integral_of_le (by norm_num)]
    rw [MeasureTheory.setIntegral_congr_fun measurableSet_Ioc
      (g := fun _ => (19 / 20 : ℝ)) (fun x hx => by simp [hx.2])]
    rw [MeasureTheory.setIntegral_const, Real.volume_Ioc,
      ENNReal.toReal_ofReal (by norm_num)]
    norm_num
  have v2 : ∫ r1 in (3 / 10 : ℝ)..(8 / 10),
      (if r1 ≤ 3 / 10 then (19 / 20 : ℝ)
        else if r1 ≤ 8 / 10 then 23 / 20 else 7 / 4) = (1 / 2) * (23 / 20) := by
    rw [intervalIntegral.integral_of_le (by norm_num)]
    rw [MeasureTheory.setIntegral_congr_fun measurableSet_Ioc
      (g := fun _ => (23 / 20 : ℝ))
      (fun x hx => by simp [not_le.mpr hx.1, hx.2])]
    rw [MeasureTheory.setIntegral_const, Real.volume_Ioc,
      ENNReal.toReal_ofReal (by norm_num)]
    norm_num
  have v3 : ∫ r1 in (8 / 10 : ℝ)..1,
      (if r1 ≤ 3 / 10 then (19 / 20 : ℝ)
        else if r1 ≤ 8 / 10 then 23 / 20 else 7 / 4) = (1 / 5) * (7 / 4) := by
    rw [intervalIntegral.integral_of_le (by norm_num)]
    rw [MeasureTheory.setIntegral_congr_fun measurableSet_Ioc
      (g := fun _ => (7 / 4 : ℝ))
      (fun x hx => by
        have hx1 : ¬x ≤ 3 / 10 := by
          have := hx.1
          intro h
          linarith
        simp [hx1, not_le.mpr hx.1])]
    rw [MeasureTheory.setIntegral_const, Real.volume_Ioc,
      ENNReal.toReal_ofReal (by norm_num)]
    norm_num
  rw [← intervalIntegral.integral_add_adjacent_intervals m1 (m2.trans m3),
    ← intervalIntegral.integral_add_adjacent_intervals m2 m3, v1, v2, v3]
  norm_num

theorem continuous_calculateAdaptiveDelay (st : RateLimiter ℝ) :
    Continuous (fun r => st.calculateAdaptiveDelay r) := by
  unfold RateLimiter.calculateAdaptiveDelay RateLimiter.jitteredDelay
  fun_prop

/-- The expectation over the three independent uniform draws factors:
the overlay multiplier is independent of the adaptive-delay draw, and
its mean is `121/100`. -/
theorem expectedWaitDelay_eq (st : RateLimiter ℝ) :
    expectedWaitDelay st = expectedAdaptiveDelay st * (121 / 100) := by
  unfold expectedWaitDelay
  rw [intervalIntegral.integral_of_le (by norm_num : (0:ℝ) ≤ 1)]
  rw [MeasureTheory.setIntegral_congr_fun measurableSet_Ioc
    (g := fun r1 => expectedAdaptiveDelay st * meanMult r1)
    (fun r1 hr1 => by
      have h1 : ∀ r2 r3 : ℝ, st.generateHumanLikeDelay r1 r2 r3 =
          st.calculateAdaptiveDelay r3 * humanMultiplier r1 r2 := by
        intro r2 r3
        unfold RateLimiter.generateHumanLikeDelay
        rw [if_pos hr1.2]
      simp only [h1]
      simp only [intervalIntegral.integral_mul_const]
      rw [intervalIntegral.integral_const_mul]
      rfl)]
  rw [← intervalIntegral.integral_of_le (by norm_num : (0:ℝ) ≤ 1)]
  rw [intervalIntegral.integral_const_mul, integral_meanMult]

theorem expectedAdaptiveDelay_lt_of (mn mx : ℝ) (h0 : 0 < mn)
    (hlt : mn < mx) :
    expectedAdaptiveDelay ⟨mn, mx, 10, 0⟩ <
      expectedAdaptiveDelay ⟨mn, mx, 0, 10⟩ := by
  have hbS : (⟨mn, mx, 10, 0⟩ : RateLimiter ℝ).baseDelay = mn := by
    unfold RateLimiter.baseDelay
    norm_num
  have hbF : (⟨mn, mx, 0, 10⟩ : RateLimiter ℝ).baseDelay = mx := by
    unfold RateLimiter.baseDelay
    norm_num
  unfold expectedAdaptiveDelay
  apply intervalIntegral.integral_lt_integral_of_continuousOn_of_le_of_exists_lt
    (by norm_num)
    (continuous_calculateAdaptiveDelay _).continuousOn
    (continuous_calculateAdaptiveDelay _).continuousOn
  · intro x hx
    unfold RateLimiter.calculateAdaptiveDelay RateLimiter.jitteredDelay
    rw [hbS, hbF]
    apply max_le_max le_rfl
    apply min_le_min ?_ le_rfl
    have hx0 : (0:ℝ) < x := hx.1
    nlinarith
  · refine ⟨0, ⟨le_refl 0, by norm_num⟩, ?_⟩
    unfold RateLimiter.calculateAdaptiveDelay RateLimiter.jitteredDelay
    rw [hbS, hbF]
    rw [min_eq_left (by nlinarith), max_eq_right (by nlinarith),
      min_eq_left (by nlinarith), max_eq_right (by nlinarith)]
    nlinarith

/-- C9 (confirmed): for a limiter whose delays are positive with
`minDelay < maxDelay`, the expected value of the delay `wait()`
computes after 10 consecutive `recordSuccess()` calls (success rate 1,
base = minDelay) is strictly less than after 10 consecutive
`recordFailure()` calls (success rate 0, base = maxDelay). -/
theorem expectedWaitDelay_success_lt_failure (mn mx : ℝ) (h0 : 0 < mn)
    (hlt : mn < mx) :
    expectedWaitDelay
        ((RateLimiter.recordSuccess)^[10] (RateLimiter.init mn mx)) <
      expectedWaitDelay
        ((RateLimiter.recordFailure)^[10] (RateLimiter.init mn mx)) := by
  have hS : (RateLimiter.recordSuccess)^[10] (RateLimiter.init mn mx) =
      (⟨mn * 1000, mx * 1000, 10, 0⟩ : RateLimiter ℝ) := rfl
  have hF : (RateLimiter.recordFailure)^[10] (RateLimiter.init mn mx) =
      (⟨mn * 1000, mx * 1000, 0, 10⟩ : RateLimiter ℝ) := rfl
  rw [hS, hF, expectedWaitDelay_eq, expectedWaitDelay_eq]
  apply mul_lt_mul_of_pos_right ?_ (by norm_num)
  exact expectedAdaptiveDelay_lt_of (mn * 1000) (mx * 1000)
    (by nlinarith) (by nlinarith)

/-- C9 witness: the comparison at the default six- and twelve-second
delays. -/
theorem expectedWaitDelay_success_lt_failure_witness :
    expectedWaitDelay
        ((RateLimiter.recordSuccess)^[10] (RateLimiter.init (6:ℝ) 12)) <
      expectedWaitDelay
        ((RateLimiter.recordFailure)^[10] (RateLimiter.init (6:ℝ) 12)) :=
  expectedWaitDelay_success_lt_failure 6 12 (by norm_num) (by norm_num)

/-! ### Regex toolkit (C6) -/

theorem digit_isDigit {c : Char} (h : c ∈ digitChars) : c.isDigit = true := by
  fin_cases h <;> decide

theorem digit_not_space {c : Char} (h : c ∈ digitChars) :
    isJsSpace c = false := by
  fin_cases h <;> decide

theorem digit_isWord {c : Char} (h : c ∈ digitChars) : isWordChar c = true := by
  fin_cases h <;> decide

theorem digit_toLower {c : Char} (h : c ∈ digitChars) : c.toLower = c := by
  fin_cases h <;> decide

theorem mem_mRe_wordB {s : List Char} {i : Nat} {cap : Cap} {p : Nat × Cap}
    (h : p ∈ mRe .wordB s i cap) : boundaryAt s i = true ∧ p = (i, cap) := by
  unfold mRe at h
  split at h
  · rcases List.mem_singleton.mp h with rfl
    exact ⟨by assumption, rfl⟩
  · cases h

theorem mem_mRe_lit {w s : List Char} {i : Nat} {cap : Cap} {p : Nat × Cap}
    (h : p ∈ mRe (.lit w) s i cap) :
    w.isPrefixOf (s.drop i) = true ∧ p = (i + w.length, cap) := by
  unfold mRe at h
  split at h
  · rcases List.mem_singleton.mp h with rfl
    exact ⟨by assumption, rfl⟩
  · cases h

theorem mem_mRe_digit {s : List Char} {i : Nat} {cap : Cap} {p : Nat × Cap}
    (h : p ∈ mRe .digit s i cap) :
    (∃ c, s.get? i = some c ∧ c.isDigit = true) ∧ p = (i + 1, cap) := by
  rcases hg : s.get? i with _ | c
  · simp only [mRe, hg] at h
    cases h
  · simp only [mRe, hg] at h
    split at h
    · rcases List.mem_singleton.mp h with rfl
      exact ⟨⟨c, rfl, by assumption⟩, rfl⟩
    · cases h

theorem mem_mRe_cat {a b : Reg} {s : List Char} {i : Nat} {cap : Cap}
    {p : Nat × Cap} (h : p ∈ mRe (.cat a b) s i cap) :
    ∃ q ∈ mRe a s i cap, p ∈ mRe b s q.1 q.2 := by
  unfold mRe at h
  rcases List.mem_flatMap.mp h with ⟨q, hq, hp⟩
  exact ⟨q, hq, hp⟩

theorem mem_mRe_grp {r : Reg} {s : List Char} {i : Nat} {cap : Cap}
    {p : Nat × Cap} (h : p ∈ mRe (.grp r) s i cap) :
    ∃ q ∈ mRe r s i cap, p = (q.1, some (i, q.1)) := by
  unfold mRe at h
  rcases List.mem_map.mp h with ⟨q, hq, hp⟩
  exact ⟨q, hq, hp.symm⟩

theorem mRe_cat_nil_left {a b : Reg} {s : List Char} {i : Nat} {cap : Cap}
    (ha : mRe a s i cap = []) : mRe (.cat a b) s i cap = [] := by
  unfold mRe
  rw [ha]
  rfl

theorem mRe_cat_nil_right {a b : Reg} {s : List Char}
    (hb : ∀ j cap2, mRe b s j cap2 = []) (i : Nat) (cap : Cap) :
    mRe (.cat a b) s i cap = [] := by
  unfold mRe
  rw [List.eq_nil_iff_forall_not_mem]
  intro p hp
  rcases List.mem_flatMap.mp hp with ⟨q, _, hp2⟩
  rw [hb q.1 q.2] at hp2
  cases hp2

theorem mRe_lit_nil_of_char {w s : List Char} {c : Char} (hc : c ∈ w)
    (hcs : c ∉ s) (i : Nat) (cap : Cap) : mRe (.lit w) s i cap = [] := by
  unfold mRe
  rw [if_neg]
  intro hpre
  rw [List.isPrefixOf_iff_prefix] at hpre
  exact hcs (List.drop_subset _ _ (hpre.subset hc))

theorem firstMatch_eq_none {r : Reg} {s : List Char}
    (h : ∀ i, mRe r s i none = []) : firstMatch r s = none := by
  unfold firstMatch
  rw [List.findSome?_eq_none_iff]
  intro i _
  rw [h i]
  rfl

theorem firstMatch_of_head {r : Reg} {s : List Char} {p : Nat × Cap}
    (h : (mRe r s 0 none).head? = some p) : firstMatch r s = some p := by
  unfold firstMatch
  rw [List.range_succ_eq_map, List.findSome?_cons, h]

theorem head?_append_of_some {α : Type} {l1 l2 : List α} {a : α}
    (h : l1.head? = some a) : (l1 ++ l2).head? = some a := by
  cases l1 with
  | nil => cases h
  | cons x t => simpa using h

theorem head?_flatMap {α β : Type} {l : List α} {f : α → List β} {a : α}
    {b : β} (hl : l.head? = some a) (hf : (f a).head? = some b) :
    (l.flatMap f).head? = some b := by
  cases l with
  | nil => cases hl
  | cons x t =>
    rw [List.head?_cons, Option.some.injEq] at hl
    subst hl
    rw [List.flatMap_cons]
    exact head?_append_of_some hf

theorem relRe_nil_of_missing {u s : List Char} {c : Char} (hc : c ∈ u)
    (hcs : c ∉ s) : ∀ (i : Nat) (cap : Cap), mRe (relRe u) s i cap = [] := by
  intro i cap
  unfold relRe relTail catList
  apply mRe_cat_nil_right
  intro j cap2
  apply mRe_cat_nil_right
  intro j2 cap3
  apply mRe_cat_nil_left
  exact mRe_lit_nil_of_char hc hcs j2 cap3

theorem mStarAux_shift {f g : List Char → Nat → Cap → List (Nat × Cap)}
    {s1 s2 : List Char}
    (hfg : ∀ i cap, f (s1 ++ s2) (s1.length + i) cap =
      (g s2 i cap).map (fun p => (s1.length + p.1, p.2))) :
    ∀ (fuel i : Nat) (cap : Cap),
      mStarAux f fuel (s1 ++ s2) (s1.length + i) cap =
        (mStarAux g fuel s2 i cap).map (fun p => (s1.length + p.1, p.2)) := by
  intro fuel
  induction fuel with
  | zero => intro i cap; rfl
  | succ n ih =>
    intro i cap
    unfold mStarAux
    rw [hfg, List.filter_map, List.flatMap_map, List.map_append]
    congr 1
    rw [List.map_flatMap]
    rw [List.filter_congr (q := fun p => decide (i < p.1))
      (fun q _ => by simp [Function.comp])]
    exact congrArg _ (funext fun q => ih q.1 q.2)

theorem mRe_shift : ∀ (r : Reg), noGW r = true → ∀ (s1 s2 : List Char)
    (i : Nat) (cap : Cap),
    mRe r (s1 ++ s2) (s1.length + i) cap =
      (mRe r s2 i cap).map (fun p => (s1.length + p.1, p.2)) := by
  intro r
  induction r with
  | eps => intro _ s1 s2 i cap; rfl
  | lit w =>
    intro _ s1 s2 i cap
    unfold mRe
    rw [show (s1 ++ s2).drop (s1.length + i) = s2.drop i from by
      rw [← List.drop_drop, List.drop_left]]
    split
    · simp [Nat.add_assoc]
    · rfl
  | digit =>
    intro _ s1 s2 i cap
    unfold mRe
    rw [show (s1 ++ s2).get? (s1.length + i) = s2.get? i from by
      rw [List.get?_append_right (Nat.le_add_right _ _)]
      congr 1
      omega]
    rcases s2.get? i with _ | c
    · rfl
    · dsimp only
      split <;> simp [Nat.add_assoc]
  | space =>
    intro _ s1 s2 i cap
    unfold mRe
    rw [show (s1 ++ s2).get? (s1.length + i) = s2.get? i from by
      rw [List.get?_append_right (Nat.le_add_right _ _)]
      congr 1
      omega]
    rcases s2.get? i with _ | c
    · rfl
    · dsimp only
      split <;> simp [Nat.add_assoc]
  | anyOf cs =>
    intro _ s1 s2 i cap
    unfold mRe
    rw [show (s1 ++ s2).get? (s1.length + i) = s2.get? i from by
      rw [List.get?_append_right (Nat.le_add_right _ _)]
      congr 1
      omega]
    rcases s2.get? i with _ | c
    · rfl
    · dsimp only
      split <;> simp [Nat.add_assoc]
  | wordB => intro h; cases h
  | grp r ih => intro h; cases h
  | cat a b iha ihb =>
    intro h s1 s2 i cap
    rw [noGW, Bool.and_eq_true] at h
    unfold mRe
    rw [iha h.1, List.flatMap_map, List.map_flatMap]
    exact congrArg _ (funext fun q => ihb h.2 s1 s2 q.1 q.2)
  | alt a b iha ihb =>
    intro h s1 s2 i cap
    rw [noGW, Bool.and_eq_true] at h
    unfold mRe
    rw [iha h.1, ihb h.2, List.map_append]
  | star r ih =>
    intro h s1 s2 i cap
    rw [noGW] at h
    unfold mRe
    rw [show (s1 ++ s2).length + 1 - (s1.length + i) = s2.length + 1 - i from by
      rw [List.length_append]
      omega]
    exact mStarAux_shift (fun j c2 => ih h s1 s2 j c2) _ i cap
  | opt r ih =>
    intro h s1 s2 i cap
    rw [noGW] at h
    unfold mRe
    rw [ih h, List.map_append]
    rfl

theorem mStarAux_cap {f : List Char → Nat → Cap → List (Nat × Cap)}
    {s : List Char}
    (hf : ∀ i c, f s i c = (f s i none).map (fun p => (p.1, c))) :
    ∀ (fuel i : Nat) (cap : Cap),
      mStarAux f fuel s i cap =
        (mStarAux f fuel s i none).map (fun p => (p.1, cap)) := by
  intro fuel
  induction fuel with
  | zero => intro i cap; rfl
  | succ n ih =>
    intro i cap
    unfold mStarAux
    rw [hf i cap, List.filter_map, List.flatMap_map, List.map_append]
    congr 1
    rw [List.map_flatMap]
    rw [List.filter_congr (q := fun p => decide (i < p.1))
      (fun q _ => by simp [Function.comp])]
    refine congrArg _ (funext fun q => ?_)
    show mStarAux f n s q.1 cap = _
    rw [ih q.1 cap, ih q.1 q.2, List.map_map]
    rfl

theorem mRe_cap : ∀ (r : Reg), noGW r = true → ∀ (s : List Char)
    (i : Nat) (cap : Cap),
    mRe r s i cap = (mRe r s i none).map (fun p => (p.1, cap)) := by
  intro r
  induction r with
  | eps => intro _ s i cap; rfl
  | lit w =>
    intro _ s i cap
    unfold mRe
    split <;> rfl
  | digit =>
    intro _ s i cap
    unfold mRe
    rcases s.get? i with _ | c
    · rfl
    · dsimp only
      split <;> rfl
  | space =>
    intro _ s i cap
    unfold mRe
    rcases s.get? i with _ | c
    · rfl
    · dsimp only
      split <;> rfl
  | anyOf cs =>
    intro _ s i cap
    unfold mRe
    rcases s.get? i with _ | c
    · rfl
    · dsimp only
      split <;> rfl
  | wordB => intro h; cases h
  | grp r ih => intro h; cases h
  | cat a b iha ihb =>
    intro h s i cap
    rw [noGW, Bool.and_eq_true] at h
    unfold mRe
    rw [iha h.1 s i cap, List.flatMap_map, List.map_flatMap]
    refine congrArg _ (funext fun q => ?_)
    show mRe b s q.1 cap = _
    rw [ihb h.2 s q.1 cap, ihb h.2 s q.1 q.2, List.map_map]
    rfl
  | alt a b iha ihb =>
    intro h s i cap
    rw [noGW, Bool.and_eq_true] at h
    unfold mRe
    rw [iha h.1 s i cap, ihb h.2 s i cap, List.map_append]
  | star r ih =>
    intro h s i cap
    rw [noGW] at h
    unfold mRe
    exact mStarAux_cap (fun j c => ih h s j c) _ i cap
  | opt r ih =>
    intro h s i cap
    rw [noGW] at h
    unfold mRe
    rw [ih h s i cap, List.map_append]
    rfl

theorem mStarAux_digit_head (s : List Char) :
    ∀ (k fuel p : Nat) (cap : Cap), k ≤ fuel →
    (∀ j, j < k → (s.get? (p + j)).any Char.isDigit = true) →
    (s.get? (p + k)).all (fun c => !c.isDigit) = true →
    (mStarAux (fun s2 i2 c2 => mRe Reg.digit s2 i2 c2) fuel s p cap).head? =
      some (p + k, cap) := by
  intro k
  induction k with
  | zero =>
    intro fuel p cap _ _ hend
    rw [Nat.add_zero] at hend ⊢
    cases fuel with
    | zero => rfl
    | succ n =>
      unfold mStarAux
      rcases hg : s.get? p with _ | c
      · rw [show mRe Reg.digit s p cap = [] from by simp [mRe, ← List.get?_eq_getElem?, hg]]
        rfl
      · rw [hg] at hend
        have hc : c.isDigit = false := by simpa using hend
        rw [show mRe Reg.digit s p cap = [] from by simp [mRe, ← List.get?_eq_getElem?, hg, hc]]
        rfl
  | succ k ih =>
    intro fuel p cap hk hrun hend
    cases fuel with
    | zero => omega
    | succ n =>
      unfold mStarAux
      have h0 := hrun 0 (Nat.succ_pos k)
      rcases hg : s.get? (p + 0) with _ | c
      · rw [hg] at h0; cases h0
      · rw [hg] at h0
        have hc : c.isDigit = true := by simpa using h0
        rw [Nat.add_zero] at hg
        rw [show mRe Reg.digit s p cap = [(p + 1, cap)] from by
          simp [mRe, ← List.get?_eq_getElem?, hg, hc]]
        rw [show List.filter (fun q => decide (p < q.1))
            [(p + 1, cap)] = [(p + 1, cap)] from by simp]
        rw [List.flatMap_cons, List.flatMap_nil, List.append_nil]
        have hrun2 : ∀ j, j < k →
            (s.get? (p + 1 + j)).any Char.isDigit = true := by
          intro j hj
          rw [show p + 1 + j = p + (j + 1) from by omega]
          exact hrun (j + 1) (by omega)
        have hend2 : (s.get? (p + 1 + k)).all (fun c => !c.isDigit) = true := by
          rw [show p + 1 + k = p + (k + 1) from by omega]
          exact hend
        have := ih n (p + 1) cap (by omega) hrun2 hend2
        rw [show p + 1 + k = p + (k + 1) from by omega] at this
        exact head?_append_of_some this

theorem digitPlus_head {s : List Char} {p k : Nat} (cap : Cap)
    (hk : 1 ≤ k)
    (hrun : ∀ j, j < k → (s.get? (p + j)).any Char.isDigit = true)
    (hend : (s.get? (p + k)).all (fun c => !c.isDigit) = true) :
    (mRe digitPlus s p cap).head? = some (p + k, cap) := by
  have h0 := hrun 0 hk
  rcases hg : s.get? (p + 0) with _ | c
  · rw [hg] at h0; cases h0
  · rw [hg] at h0
    have hc : c.isDigit = true := by simpa using h0
    rw [Nat.add_zero] at hg
    have hlen : p + 1 ≤ s.length := by
      by_contra hle
      rw [List.get?_eq_none.mpr (by omega)] at hg
      cases hg
    unfold digitPlus
    show ((mRe Reg.digit s p cap).flatMap
      (fun q => mRe (Reg.star Reg.digit) s q.1 q.2)).head? = _
    refine head?_flatMap (a := (p + 1, cap)) ?_ ?_
    · rw [show mRe Reg.digit s p cap = [(p + 1, cap)] from by
        simp [mRe, ← List.get?_eq_getElem?, hg, hc]]
      rfl
    · show (mStarAux _ (s.length + 1 - (p + 1)) s (p + 1) cap).head? = _
      have hrun2 : ∀ j, j < k - 1 →
          (s.get? (p + 1 + j)).any Char.isDigit = true := by
        intro j hj
        rw [show p + 1 + j = p + (j + 1) from by omega]
        exact hrun (j + 1) (by omega)
      have hend2 : (s.get? (p + 1 + (k - 1))).all
          (fun c => !c.isDigit) = true := by
        rw [show p + 1 + (k - 1) = p + k from by omega]
        exact hend
      have hfuel : k - 1 ≤ s.length + 1 - (p + 1) := by
        rcases Nat.lt_or_ge (k - 1) 1 with h1 | h1
        · omega
        · have h2 := hrun (k - 1) (by omega)
          rcases hg2 : s.get? (p + (k - 1)) with _ | c2
          · rw [hg2] at h2; cases h2
          · have : p + (k - 1) < s.length := by
              by_contra hle
              rw [List.get?_eq_none.mpr (by omega)] at hg2
              cases hg2
            omega
      have := mStarAux_digit_head s (k - 1) (s.length + 1 - (p + 1))
        (p + 1) cap hfuel hrun2 hend2
      rw [show p + 1 + (k - 1) = p + k from by omega] at this
      exact this

theorem digitPlus_head_append {D sfx : List Char} (cap : Cap)
    (hD : 1 ≤ D.length)
    (hdig : ∀ c ∈ D, c.isDigit = true)
    (hsfx : sfx.head?.all (fun c => !c.isDigit) = true) :
    (mRe digitPlus (D ++ sfx) 0 cap).head? = some (D.length, cap) := by
  have hrun : ∀ j, j < D.length →
      (((D ++ sfx).get? (0 + j)).any Char.isDigit) = true := by
    intro j hj
    rw [Nat.zero_add, List.get?_append hj]
    rcases hg : D.get? j with _ | c
    · rw [List.get?_eq_none] at hg
      omega
    · simpa using hdig c (List.get?_mem hg)
  have hend : (((D ++ sfx).get? (0 + D.length)).all
      (fun c => !c.isDigit)) = true := by
    rw [Nat.zero_add, List.get?_append_right (le_refl _), Nat.sub_self,
      List.get?_zero]
    exact hsfx
  have := digitPlus_head cap hD hrun hend
  rwa [Nat.zero_add] at this

theorem relRe_head {u D sfx : List Char} {e0 : Nat}
    (hD : 1 ≤ D.length)
    (hdig : ∀ c ∈ D, c.isDigit = true)
    (hsfx : sfx.head?.all (fun c => !c.isDigit) = true)
    (hng : noGW (relTail u) = true)
    (ht : (mRe (relTail u) sfx 0 none).head? = some (e0, none)) :
    (mRe (relRe u) (D ++ sfx) 0 none).head? =
      some (D.length + e0, some (0, D.length)) := by
  show ((mRe (altsRe [.grp digitPlus, .lit ("a".data), .lit ("an".data),
      .lit ("one".data)]) (D ++ sfx) 0 none).flatMap
    (fun q => mRe (relTail u) (D ++ sfx) q.1 q.2)).head? = _
  refine head?_flatMap (a := (D.length, some (0, D.length))) ?_ ?_
  · show ((mRe (.grp digitPlus) (D ++ sfx) 0 none) ++
      mRe (altsRe [.lit ("a".data), .lit ("an".data), .lit ("one".data)])
        (D ++ sfx) 0 none).head? = _
    apply head?_append_of_some
    show ((mRe digitPlus (D ++ sfx) 0 none).map
      (fun p => (p.1, some (0, p.1)))).head? = _
    rw [List.head?_map, digitPlus_head_append none hD hdig hsfx]
    rfl
  · show (mRe (relTail u) (D ++ sfx) D.length (some (0, D.length))).head? = _
    have h1 := mRe_shift (relTail u) hng D sfx 0 (some (0, D.length))
    rw [Nat.add_zero] at h1
    rw [h1, mRe_cap (relTail u) hng sfx 0 (some (0, D.length)),
      List.head?_map, List.head?_map, ht]
    rfl

theorem isPrefixOf_get {w s : List Char} (h : w.isPrefixOf s = true)
    {j : Nat} (hj : j < w.length) : s.get? j = w.get? j := by
  rw [List.isPrefixOf_iff_prefix] at h
  rcases h with ⟨t, rfl⟩
  rw [List.get?_append hj]

theorem get?_drop_char (s : List Char) (i j : Nat) :
    (s.drop i).get? j = s.get? (i + j) := by
  rw [List.get?_eq_getElem?, List.get?_eq_getElem?, List.getElem?_drop]

theorem isWordChar_of_digit {c : Char} (h : c.isDigit = true) :
    isWordChar c = true := by
  simp [isWordChar, Char.isAlphanum, h]

theorem digit_pos_left {D sfx : List Char}
    (hsfx : ∀ c ∈ sfx, c.isDigit = false) {n : Nat} {c : Char}
    (hg : (D ++ sfx).get? n = some c) (hc : c.isDigit = true) :
    n < D.length := by
  by_contra hle
  push_neg at hle
  rw [List.get?_append_right hle] at hg
  have := hsfx c (List.get?_mem hg)
  rw [hc] at this
  cases this

theorem left_get_digit {D : List Char} (sfx : List Char)
    (hdig : ∀ c ∈ D, c.isDigit = true) {n : Nat} (hn : n < D.length) :
    ∃ c, (D ++ sfx).get? n = some c ∧ c.isDigit = true := by
  rw [List.get?_append hn]
  rcases hg : D.get? n with _ | c
  · rw [List.get?_eq_none] at hg
    omega
  · exact ⟨c, rfl, hdig c (List.get?_mem hg)⟩

theorem boundaryAt_false_of_words {s : List Char} {i : Nat} {c1 c2 : Char}
    (h1 : s.get? i = some c1) (hw1 : isWordChar c1 = true)
    (h2 : s.get? (i + 1) = some c2) (hw2 : isWordChar c2 = true) :
    boundaryAt s (i + 1) = false := by
  simp [boundaryAt, ← List.get?_eq_getElem?, h1, h2, hw1, hw2]

theorem yearAbs_none {D sfx : List Char}
    (hdig : ∀ c ∈ D, c.isDigit = true)
    (hsfx : ∀ c ∈ sfx, c.isDigit = false)
    (hno : ¬(D.length = 4 ∧ D.get? 0 = some '2' ∧ D.get? 1 = some '0')) :
    firstMatch yearAbsRe (D ++ sfx) = none := by
  apply firstMatch_eq_none
  intro i
  rw [List.eq_nil_iff_forall_not_mem]
  intro p hp
  have hp1 : p ∈ mRe (.cat .wordB (.cat (.grp (.cat (.lit ("20".data))
      (.cat .digit .digit))) .wordB)) (D ++ sfx) i none := hp
  rcases mem_mRe_cat hp1 with ⟨q, hq, hp2⟩
  rcases mem_mRe_wordB hq with ⟨hb0, rfl⟩
  rcases mem_mRe_cat hp2 with ⟨q2, hq2, hp3⟩
  rcases mem_mRe_grp hq2 with ⟨q3, hq3, rfl⟩
  rcases mem_mRe_cat hq3 with ⟨q4, hq4, hq3b⟩
  rcases mem_mRe_lit hq4 with ⟨hpre, rfl⟩
  rcases mem_mRe_cat hq3b with ⟨q5, hq5, hq3c⟩
  rcases mem_mRe_digit hq5 with ⟨⟨c2, hg2, hc2⟩, rfl⟩
  rcases mem_mRe_digit hq3c with ⟨⟨c3, hg3, hc3⟩, rfl⟩
  rcases mem_mRe_wordB hp3 with ⟨hb4, _⟩
  have h2a := isPrefixOf_get hpre (show (0:Nat) < ("20".data).length from
    by decide)
  rw [get?_drop_char] at h2a
  rw [show (("20".data).get? 0) = some ('2') from rfl] at h2a
  have h0a := isPrefixOf_get hpre (show (1:Nat) < ("20".data).length from
    by decide)
  rw [get?_drop_char] at h0a
  rw [show (("20".data).get? 1) = some ('0') from rfl] at h0a
  rw [show ("20".data).length = 2 from rfl] at hg2 hg3 hb4
  have hi3 : i + 2 + 1 < D.length := digit_pos_left hsfx hg3 hc3
  rcases i with _ | j
  · rw [Nat.zero_add] at h2a h0a
    rw [Nat.zero_add] at hg3 hb4 hi3
    have hD4 : D.length = 2 + 1 + 1 := by
      by_contra hD
      rcases left_get_digit sfx hdig (show 2 + 1 + 1 < D.length from
        by omega) with ⟨c4, hg4, hc4⟩
      rw [boundaryAt_false_of_words hg3 (isWordChar_of_digit hc3)
        hg4 (isWordChar_of_digit hc4)] at hb4
      cases hb4
    refine hno ⟨by omega, ?_, ?_⟩
    · rw [List.get?_append (by omega)] at h2a
      exact h2a
    · rw [List.get?_append (by omega)] at h0a
      exact h0a
  · rcases left_get_digit sfx hdig (show j < D.length from by omega)
      with ⟨cj, hgj, hcj⟩
    rw [show j + 1 + 0 = j + 1 from rfl] at h2a
    rw [boundaryAt_false_of_words hgj (isWordChar_of_digit hcj)
      h2a (isWordChar_of_digit (by decide))] at hb0
    cases hb0

theorem getLast?_append_of_some {α : Type} {l1 l2 : List α} {a : α}
    (h : l2.getLast? = some a) : (l1 ++ l2).getLast? = some a := by
  rw [← List.head?_reverse] at h ⊢
  rw [List.reverse_append]
  exact head?_append_of_some h

theorem trim_digits_append {D sfx : List Char} {c0 : Char}
    (hD : D ≠ []) (hdig : ∀ c ∈ D, c ∈ digitChars)
    (hsl : sfx.getLast? = some c0) (hc0 : isJsSpace c0 = false) :
    trimList (D ++ sfx) = D ++ sfx := by
  apply trimList_eq_self
  · intro x hx
    cases D with
    | nil => exact absurd rfl hD
    | cons a t =>
      rw [List.cons_append, List.head?_cons, Option.some.injEq] at hx
      rw [← hx]
      exact digit_not_space (hdig a (List.mem_cons_self _ _))
  · intro x hx
    rw [getLast?_append_of_some hsl, Option.some.injEq] at hx
    subst hx
    exact hc0

theorem lower_digits_append {D sfx : List Char}
    (hdig : ∀ c ∈ D, c ∈ digitChars)
    (hsfx : sfx.map Char.toLower = sfx) :
    (D ++ sfx).map Char.toLower = D ++ sfx := by
  rw [List.map_append, hsfx]
  congr 1
  rw [show D.map Char.toLower = D.map id from
    List.map_congr_left (fun c hc => digit_toLower (hdig c hc)), List.map_id]

theorem dim_ge (y : Int) (m : Nat) : 28 ≤ daysInMonth y m := by
  unfold daysInMonth
  split <;> first | omega | (split <;> omega)

theorem dim_le (y : Int) (m : Nat) : daysInMonth y m ≤ 31 := by
  unfold daysInMonth
  split <;> first | omega | (split <;> omega)

theorem dbm_step (y : Int) (m : Nat) :
    daysBeforeMonth y (m + 1) = daysBeforeMonth y m + daysInMonth y m := rfl

theorem dbm_12 (y : Int) :
    daysBeforeMonth y 12 = 365 + (if isLeap y then 1 else 0) := by
  rw [show (12:Nat) = 11 + 1 from rfl, dbm_step, show (11:Nat) = 10 + 1 from rfl,
    dbm_step, show (10:Nat) = 9 + 1 from rfl, dbm_step,
    show (9:Nat) = 8 + 1 from rfl, dbm_step, show (8:Nat) = 7 + 1 from rfl,
    dbm_step, show (7:Nat) = 6 + 1 from rfl, dbm_step,
    show (6:Nat) = 5 + 1 from rfl, dbm_step, show (5:Nat) = 4 + 1 from rfl,
    dbm_step, show (4:Nat) = 3 + 1 from rfl, dbm_step,
    show (3:Nat) = 2 + 1 from rfl, dbm_step, show (2:Nat) = 1 + 1 from rfl,
    dbm_step, show (1:Nat) = 0 + 1 from rfl, dbm_step]
  rw [show daysBeforeMonth y 0 = 0 from rfl, show daysInMonth y 0 = 31 from rfl,
    show daysInMonth y 2 = 31 from rfl, show daysInMonth y 3 = 30 from rfl,
    show daysInMonth y 4 = 31 from rfl, show daysInMonth y 5 = 30 from rfl,
    show daysInMonth y 6 = 31 from rfl, show daysInMonth y 7 = 31 from rfl,
    show daysInMonth y 8 = 30 from rfl, show daysInMonth y 9 = 31 from rfl,
    show daysInMonth y 10 = 30 from rfl, show daysInMonth y 11 = 31 from rfl,
    show daysInMonth y 1 = (if isLeap y then 29 else 28) from rfl]
  split <;> omega

theorem dby_step (y : Int) :
    daysBeforeYear (y + 1) =
      daysBeforeYear y + 365 + (if isLeap y then 1 else 0) := by
  unfold daysBeforeYear isLeap
  simp only [Bool.and_eq_true, Bool.or_eq_true, beq_iff_eq, bne_iff_ne,
    Int.add_sub_cancel]
  split_ifs with h
  · rcases h with ⟨h4, h100 | h400⟩ <;> omega
  · push_neg at h
    by_cases h4 : y % 4 = 0
    · rcases h h4 with ⟨h100, h400⟩
      omega
    · omega

theorem setDateAux_step_neg0 {fuel : Nat} {y : Int} {x : Int} {ms : Nat}
    (hx : x < 1) :
    setDateAux (fuel + 1) y 0 x ms =
      setDateAux fuel (y - 1) 11 (x + daysInMonth (y - 1) 11) ms := by
  simp only [setDateAux]
  rw [if_pos hx]
  simp

theorem setDateAux_step_neg {fuel : Nat} {y : Int} {m : Nat} {x : Int}
    {ms : Nat} (hx : x < 1) (hm : m ≠ 0) :
    setDateAux (fuel + 1) y m x ms =
      setDateAux fuel y (m - 1) (x + daysInMonth y (m - 1)) ms := by
  simp only [setDateAux]
  rw [if_pos hx]
  simp only [if_neg hm]

theorem setDateAux_step_pos11 {fuel : Nat} {y : Int} {x : Int} {ms : Nat}
    (hx1 : ¬x < 1) (hx2 : x > daysInMonth y 11) :
    setDateAux (fuel + 1) y 11 x ms =
      setDateAux fuel (y + 1) 0 (x - daysInMonth y 11) ms := by
  simp only [setDateAux]
  rw [if_neg hx1, if_pos hx2]
  simp

theorem setDateAux_step_pos {fuel : Nat} {y : Int} {m : Nat} {x : Int}
    {ms : Nat} (hx1 : ¬x < 1) (hx2 : x > daysInMonth y m) (hm : m ≠ 11) :
    setDateAux (fuel + 1) y m x ms =
      setDateAux fuel y (m + 1) (x - daysInMonth y m) ms := by
  simp only [setDateAux]
  rw [if_neg hx1, if_pos hx2]
  simp only [if_neg hm]

theorem setDateAux_step_done {fuel : Nat} {y : Int} {m : Nat} {x : Int}
    {ms : Nat} (hx1 : ¬x < 1) (hx2 : ¬x > daysInMonth y m) :
    setDateAux (fuel + 1) y m x ms = ⟨y, m, x.toNat, ms⟩ := by
  simp only [setDateAux]
  rw [if_neg hx1, if_neg hx2]

theorem setDateAux_spec : ∀ (fuel : Nat) (y : Int) (m : Nat) (x : Int)
    (ms : Nat), m ≤ 11 →
    (if x ≤ 0 then 57 - x else x + 2) ≤ (fuel : Int) →
    (setDateAux fuel y m x ms).month ≤ 11 ∧
    1 ≤ (setDateAux fuel y m x ms).day ∧
    (setDateAux fuel y m x ms).day ≤
      daysInMonth (setDateAux fuel y m x ms).year
        (setDateAux fuel y m x ms).month ∧
    (setDateAux fuel y m x ms).msOfDay = ms ∧
    daysBeforeYear (setDateAux fuel y m x ms).year +
      daysBeforeMonth (setDateAux fuel y m x ms).year
        (setDateAux fuel y m x ms).month +
      (setDateAux fuel y m x ms).day =
      daysBeforeYear y + daysBeforeMonth y m + x := by
  intro fuel
  induction fuel with
  | zero =>
    intro y m x ms _ hf
    exfalso
    split_ifs at hf <;> simp only [Nat.cast_zero] at hf <;> omega
  | succ n ih =>
    intro y m x ms hm hf
    by_cases hx1 : x < 1
    · rw [if_pos (by omega : x ≤ 0)] at hf
      by_cases hm0 : m = 0
      · subst hm0
        rw [setDateAux_step_neg0 hx1]
        have hd1 := dim_ge (y - 1) 11
        have hd2 := dim_le (y - 1) 11
        obtain ⟨h1, h2, h3, h4, h5⟩ :=
          ih (y - 1) 11 (x + daysInMonth (y - 1) 11) ms (by omega)
            (by split_ifs <;> push_cast at hf ⊢ <;> omega)
        refine ⟨h1, h2, h3, h4, ?_⟩
        rw [h5]
        have e1 := dbm_step (y - 1) 11
        rw [show (11:Nat) + 1 = 12 from rfl] at e1
        have e2 := dbm_12 (y - 1)
        have e3 := dby_step (y - 1)
        rw [show y - 1 + 1 = y from by omega] at e3
        have e4 : daysBeforeMonth y 0 = 0 := rfl
        by_cases hL : isLeap (y - 1) = true <;>
          simp only [hL, if_pos, if_neg, if_true, if_false,
            Bool.false_eq_true] at e2 e3 <;>
          omega
      · rw [setDateAux_step_neg hx1 hm0]
        have hd1 := dim_ge y (m - 1)
        have hd2 := dim_le y (m - 1)
        obtain ⟨h1, h2, h3, h4, h5⟩ :=
          ih y (m - 1) (x + daysInMonth y (m - 1)) ms (by omega)
            (by split_ifs <;> push_cast at hf ⊢ <;> omega)
        refine ⟨h1, h2, h3, h4, ?_⟩
        rw [h5]
        have e1 := dbm_step y (m - 1)
        rw [show m - 1 + 1 = m from by omega] at e1
        omega
    · rw [if_neg (by omega : ¬x ≤ 0)] at hf
      by_cases hx2 : x > daysInMonth y m
      · have hd1 := dim_ge y m
        have hd2 := dim_le y m
        by_cases hm11 : m = 11
        · subst hm11
          rw [setDateAux_step_pos11 hx1 hx2]
          obtain ⟨h1, h2, h3, h4, h5⟩ :=
            ih (y + 1) 0 (x - daysInMonth y 11) ms (by omega)
              (by split_ifs <;> push_cast at hf ⊢ <;> omega)
          refine ⟨h1, h2, h3, h4, ?_⟩
          rw [h5]
          have e1 := dbm_step y 11
          rw [show (11:Nat) + 1 = 12 from rfl] at e1
          have e2 := dbm_12 y
          have e3 := dby_step y
          have e4 : daysBeforeMonth (y + 1) 0 = 0 := rfl
          by_cases hL : isLeap y = true <;>
            simp only [hL, if_pos, if_neg, if_true, if_false,
              Bool.false_eq_true] at e2 e3 <;>
            omega
        · rw [setDateAux_step_pos hx1 hx2 hm11]
          obtain ⟨h1, h2, h3, h4, h5⟩ :=
            ih y (m + 1) (x - daysInMonth y m) ms (by omega)
              (by split_ifs <;> push_cast at hf ⊢ <;> omega)
          refine ⟨h1, h2, h3, h4, ?_⟩
          rw [h5]
          have e1 := dbm_step y m
          omega
      · rw [setDateAux_step_done hx1 hx2]
        refine ⟨hm, by simp ; omega, by simp ; omega, rfl, by simp ; omega⟩

theorem setDateJs_spec (d : JsDate) (x : Int) (hm : d.month ≤ 11) :
    (setDateJs d x).month ≤ 11 ∧
    1 ≤ (setDateJs d x).day ∧
    (setDateJs d x).day ≤
      daysInMonth (setDateJs d x).year (setDateJs d x).month ∧
    (setDateJs d x).msOfDay = d.msOfDay ∧
    toDays (setDateJs d x) = toDays d - d.day + x := by
  unfold setDateJs
  have hf : (if x ≤ 0 then 57 - x else x + 2) ≤
      ((x.natAbs + 80 : Nat) : Int) := by
    split_ifs <;> omega
  obtain ⟨h1, h2, h3, h4, h5⟩ :=
    setDateAux_spec (x.natAbs + 80) d.year d.month x d.msOfDay hm hf
  refine ⟨h1, h2, h3, h4, ?_⟩
  unfold toDays
  omega

theorem dim_indep (y y' : Int) {m : Nat} (hm : m ≠ 1) :
    daysInMonth y m = daysInMonth y' m := by
  rcases m with _|_|_|_|_|_|_|_|_|_|_|_|m
  · rfl
  · exact absurd rfl hm
  · rfl
  · rfl
  · rfl
  · rfl
  · rfl
  · rfl
  · rfl
  · rfl
  · rfl
  · rfl
  · rfl

theorem setFullYear_facts (d : JsDate) (y : Int) (hv : d.Valid) :
    (setFullYear d y).year = y ∧
    (setFullYear d y).msOfDay = d.msOfDay ∧
    (setFullYear d y).Valid := by
  obtain ⟨hm, hd1, hd2, hms⟩ := hv
  unfold setFullYear
  split_ifs with h
  · refine ⟨rfl, rfl, ?_⟩
    show (2:Nat) ≤ 11 ∧ 1 ≤ 1 ∧ 1 ≤ daysInMonth y 2 ∧ d.msOfDay < 86400000
    exact ⟨by omega, le_refl 1,
      by rw [show daysInMonth y 2 = 31 from rfl]; omega, hms⟩
  · refine ⟨rfl, rfl, hm, hd1, ?_, hms⟩
    show d.day ≤ daysInMonth y d.month
    by_cases hm1 : d.month = 1
    · cases hL : isLeap y
      · have h29 : d.day ≠ 29 := fun h29 => h ⟨hm1, h29, hL⟩
        rw [hm1] at hd2 ⊢
        rw [show daysInMonth y 1 = if isLeap y then 29 else 28 from rfl, hL,
          if_neg (by simp)]
        rw [show daysInMonth d.year 1 =
          if isLeap d.year then 29 else 28 from rfl] at hd2
        split_ifs at hd2 <;> omega
      · rw [hm1] at hd2 ⊢
        rw [show daysInMonth y 1 = if isLeap y then 29 else 28 from rfl, hL,
          if_pos rfl]
        rw [show daysInMonth d.year 1 =
          if isLeap d.year then 29 else 28 from rfl] at hd2
        split_ifs at hd2 <;> omega
    · rw [dim_indep y d.year hm1]
      exact hd2

theorem setMonthJs_facts (d : JsDate) (m : Int) (hv : d.Valid) :
    (setMonthJs d m).msOfDay = d.msOfDay ∧
    (setMonthJs d m).Valid ∧
    (12 * (setMonthJs d m).year + ((setMonthJs d m).month : Int) =
        12 * d.year + m ∨
      12 * (setMonthJs d m).year + ((setMonthJs d m).month : Int) =
        12 * d.year + m + 1) := by
  obtain ⟨hm, hd1, hd2, hms⟩ := hv
  have hday31 : d.day ≤ 31 := le_trans hd2 (dim_le d.year d.month)
  have hmod : ((m % 12).toNat : Int) = m % 12 := by omega
  have hmod11 : (m % 12).toNat ≤ 11 := by omega
  have hdiv : 12 * (d.year + m / 12) + ((m % 12).toNat : Int) =
      12 * d.year + m := by omega
  unfold setMonthJs
  simp only []
  split_ifs with h1 h2
  · exfalso
    rw [h2] at h1
    rw [show daysInMonth (d.year + m / 12) 11 = 31 from rfl] at h1
    omega
  · have hge := dim_ge (d.year + m / 12) (m % 12).toNat
    have hge2 := dim_ge (d.year + m / 12) ((m % 12).toNat + 1)
    refine ⟨rfl, ?_, .inr ?_⟩
    · show (m % 12).toNat + 1 ≤ 11 ∧
        1 ≤ d.day - daysInMonth (d.year + m / 12) (m % 12).toNat ∧
        d.day - daysInMonth (d.year + m / 12) (m % 12).toNat ≤
          daysInMonth (d.year + m / 12) ((m % 12).toNat + 1) ∧
        d.msOfDay < 86400000
      exact ⟨by omega, by omega, by omega, hms⟩
    · show 12 * (d.year + m / 12) + (((m % 12).toNat + 1 : Nat) : Int) =
        12 * d.year + m + 1
      push_cast
      omega
  · exact ⟨rfl, ⟨hmod11, hd1, le_of_not_lt h1, hms⟩, .inl hdiv⟩

theorem relValue_eq {D sfx : List Char} :
    relValue (D ++ sfx) (some (0, D.length)) = parseDigits D := by
  show parseDigits (List.take (D.length - 0) (List.drop 0 (D ++ sfx))) =
    parseDigits D
  rw [Nat.sub_zero, List.drop_zero, List.take_left]

theorem not_mem_append_digits {c : Char} {D sfx : List Char}
    (hdig : ∀ x ∈ D, x ∈ digitChars) (hc : c ∉ digitChars)
    (hcs : c ∉ sfx) : c ∉ D ++ sfx := by
  intro h
  rcases List.mem_append.mp h with h | h
  · exact hc (hdig c h)
  · exact hcs h

theorem parse_rel_years (now : JsDate) {D : List Char} (hD : D ≠ [])
    (hdig : ∀ c ∈ D, c ∈ digitChars)
    (hno : ¬(D.length = 4 ∧ D.get? 0 = some '2' ∧ D.get? 1 = some '0')) :
    parseGoogleMapsDate now ⟨D ++ (" years ago").data⟩ =
      some (setFullYear now (now.year - parseDigits D)) := by
  have hdig' : ∀ c ∈ D, c.isDigit = true := fun c hc => digit_isDigit (hdig c hc)
  have hD1 : 1 ≤ D.length := List.length_pos.mpr hD
  have hne : ¬(D ++ (" years ago").data = []) := by
    intro h
    exact hD (List.append_eq_nil.mp h).1
  have ht : (mRe (relTail (("year").data)) ((" years ago").data) 0
      none).head? = some (10, none) := by rfl
  simp only [parseGoogleMapsDate]
  rw [trim_digits_append hD hdig
      (show ((" years ago").data).getLast? = some ('o') from rfl) (by decide),
    if_neg hne,
    lower_digits_append hdig (by decide),
    yearAbs_none hdig' (by decide) hno,
    firstMatch_of_head (relRe_head hD1 hdig' (by decide) (by decide) ht)]
  dsimp only
  rw [relValue_eq]

theorem parse_rel_months (now : JsDate) {D : List Char} (hD : D ≠ [])
    (hdig : ∀ c ∈ D, c ∈ digitChars)
    (hno : ¬(D.length = 4 ∧ D.get? 0 = some '2' ∧ D.get? 1 = some '0')) :
    parseGoogleMapsDate now ⟨D ++ (" months ago").data⟩ =
      some (setMonthJs now ((now.month : Int) - parseDigits D)) := by
  have hdig' : ∀ c ∈ D, c.isDigit = true := fun c hc => digit_isDigit (hdig c hc)
  have hD1 : 1 ≤ D.length := List.length_pos.mpr hD
  have hne : ¬(D ++ (" months ago").data = []) := by
    intro h
    exact hD (List.append_eq_nil.mp h).1
  have ht : (mRe (relTail (("month").data)) ((" months ago").data) 0
      none).head? = some (11, none) := by rfl
  have hy : ('y') ∉ D ++ (" months ago").data :=
    not_mem_append_digits hdig (by decide) (by decide)
  simp only [parseGoogleMapsDate]
  rw [trim_digits_append hD hdig
      (show ((" months ago").data).getLast? = some ('o') from rfl) (by decide),
    if_neg hne,
    lower_digits_append hdig (by decide),
    yearAbs_none hdig' (by decide) hno,
    firstMatch_eq_none (fun i => relRe_nil_of_missing
      (show ('y') ∈ (("year").data) from by decide) hy i none),
    firstMatch_of_head (relRe_head hD1 hdig' (by decide) (by decide) ht)]
  dsimp only
  rw [relValue_eq]

theorem parse_rel_weeks (now : JsDate) {D : List Char} (hD : D ≠ [])
    (hdig : ∀ c ∈ D, c ∈ digitChars)
    (hno : ¬(D.length = 4 ∧ D.get? 0 = some '2' ∧ D.get? 1 = some '0')) :
    parseGoogleMapsDate now ⟨D ++ (" weeks ago").data⟩ =
      some (setDateJs now ((now.day : Int) - 7 * parseDigits D)) := by
  have hdig' : ∀ c ∈ D, c.isDigit = true := fun c hc => digit_isDigit (hdig c hc)
  have hD1 : 1 ≤ D.length := List.length_pos.mpr hD
  have hne : ¬(D ++ (" weeks ago").data = []) := by
    intro h
    exact hD (List.append_eq_nil.mp h).1
  have ht : (mRe (relTail (("week").data)) ((" weeks ago").data) 0
      none).head? = some (10, none) := by rfl
  have hy : ('y') ∉ D ++ (" weeks ago").data :=
    not_mem_append_digits hdig (by decide) (by decide)
  have hmm : ('m') ∉ D ++ (" weeks ago").data :=
    not_mem_append_digits hdig (by decide) (by decide)
  simp only [parseGoogleMapsDate]
  rw [trim_digits_append hD hdig
      (show ((" weeks ago").data).getLast? = some ('o') from rfl) (by decide),
    if_neg hne,
    lower_digits_append hdig (by decide),
    yearAbs_none hdig' (by decide) hno,
    firstMatch_eq_none (fun i => relRe_nil_of_missing
      (show ('y') ∈ (("year").data) from by decide) hy i none),
    firstMatch_eq_none (fun i => relRe_nil_of_missing
      (show ('m') ∈ (("month").data) from by decide) hmm i none),
    firstMatch_of_head (relRe_head hD1 hdig' (by decide) (by decide) ht)]
  dsimp only
  rw [relValue_eq]

theorem parse_rel_days (now : JsDate) {D : List Char} (hD : D ≠ [])
    (hdig : ∀ c ∈ D, c ∈ digitChars)
    (hno : ¬(D.length = 4 ∧ D.get? 0 = some '2' ∧ D.get? 1 = some '0')) :
    parseGoogleMapsDate now ⟨D ++ (" days ago").data⟩ =
      some (setDateJs now ((now.day : Int) - parseDigits D)) := by
  have hdig' : ∀ c ∈ D, c.isDigit = true := fun c hc => digit_isDigit (hdig c hc)
  have hD1 : 1 ≤ D.length := List.length_pos.mpr hD
  have hne : ¬(D ++ (" days ago").data = []) := by
    intro h
    exact hD (List.append_eq_nil.mp h).1
  have ht : (mRe (relTail (("day").data)) ((" days ago").data) 0
      none).head? = some (9, none) := by rfl
  have he : ('e') ∉ D ++ (" days ago").data :=
    not_mem_append_digits hdig (by decide) (by decide)
  have hmm : ('m') ∉ D ++ (" days ago").data :=
    not_mem_append_digits hdig (by decide) (by decide)
  have hw : ('w') ∉ D ++ (" days ago").data :=
    not_mem_append_digits hdig (by decide) (by decide)
  simp only [parseGoogleMapsDate]
  rw [trim_digits_append hD hdig
      (show ((" days ago").data).getLast? = some ('o') from rfl) (by decide),
    if_neg hne,
    lower_digits_append hdig (by decide),
    yearAbs_none hdig' (by decide) hno,
    firstMatch_eq_none (fun i => relRe_nil_of_missing
      (show ('e') ∈ (("year").data) from by decide) he i none),
    firstMatch_eq_none (fun i => relRe_nil_of_missing
      (show ('m') ∈ (("month").data) from by decide) hmm i none),
    firstMatch_eq_none (fun i => relRe_nil_of_missing
      (show ('w') ∈ (("week").data) from by decide) hw i none),
    firstMatch_of_head (relRe_head hD1 hdig' (by decide) (by decide) ht)]
  dsimp only
  rw [relValue_eq]

theorem parse_year_abs (now : JsDate) {d2 d3 : Char}
    (h2 : d2 ∈ digitChars) (h3 : d3 ∈ digitChars) :
    parseGoogleMapsDate now ⟨['2', '0', d2, d3]⟩ =
      some ⟨(parseDigits ['2', '0', d2, d3] : Int), 11, 31, 0⟩ := by
  fin_cases h2 <;> fin_cases h3 <;> rfl

/-- C6 (counterexample): the absolute-year pattern is `/\b(20\d{2})\b/`, not
any 4-digit year: `"1999"` parses to nothing at all, and a relative amount
of 20xx shape is hijacked by the absolute pattern: `"2023 years ago"`
resolves to December 31, 2023 instead of 2023 years before now. -/
theorem parseDate_year_counterexample :
    parseGoogleMapsDate nowTest ("2023 years ago") =
      some ⟨2023, 11, 31, 0⟩ ∧
    some (⟨2023, 11, 31, 0⟩ : JsDate) ≠
      some (setFullYear nowTest (nowTest.year - 2023)) ∧
    parseGoogleMapsDate nowTest ("1999") = none := by
  refine ⟨rfl, ?_, rfl⟩
  intro h
  cases h

/-- C6 (amended): for every digit string `D` (amount `N = parseDigits D`)
that the absolute pattern `20\d{2}` does not capture, the relative forms
parse to exactly `N` units before `now` within each unit's granularity:
years decrement the year field exactly, months decrement the absolute
month index exactly up to the end-of-month day roll, weeks and days move
the absolute day index by exactly `7N` and `N`; the time of day is
preserved and the result is calendar-valid.  A pure `20xx` string resolves
to December 31 of that year, and the five textual singular forms parse as
one unit back. -/
theorem parseDate_units_amended (now : JsDate) (hv : now.Valid)
    {D : List Char} (hD : D ≠ []) (hdig : ∀ c ∈ D, c ∈ digitChars)
    (hno : ¬(D.length = 4 ∧ D.get? 0 = some '2' ∧ D.get? 1 = some '0')) :
    (∃ r, parseGoogleMapsDate now ⟨D ++ (" years ago").data⟩ = some r ∧
      r.year = now.year - parseDigits D ∧
      r.msOfDay = now.msOfDay ∧ r.Valid) ∧
    (∃ r, parseGoogleMapsDate now ⟨D ++ (" months ago").data⟩ = some r ∧
      (12 * r.year + (r.month : Int) =
          12 * now.year + now.month - parseDigits D ∨
        12 * r.year + (r.month : Int) =
          12 * now.year + now.month - parseDigits D + 1) ∧
      r.msOfDay = now.msOfDay ∧ r.Valid) ∧
    (∃ r, parseGoogleMapsDate now ⟨D ++ (" weeks ago").data⟩ = some r ∧
      toDays r = toDays now - 7 * parseDigits D ∧
      r.msOfDay = now.msOfDay ∧ r.Valid) ∧
    (∃ r, parseGoogleMapsDate now ⟨D ++ (" days ago").data⟩ = some r ∧
      toDays r = toDays now - parseDigits D ∧
      r.msOfDay = now.msOfDay ∧ r.Valid) ∧
    (∀ d2 d3 : Char, d2 ∈ digitChars → d3 ∈ digitChars →
      parseGoogleMapsDate now ⟨['2', '0', d2, d3]⟩ =
        some ⟨(parseDigits ['2', '0', d2, d3] : Int), 11, 31, 0⟩) ∧
    (∃ r, parseGoogleMapsDate now ("a year ago") = some r ∧
      r.year = now.year - 1 ∧ r.msOfDay = now.msOfDay ∧ r.Valid) ∧
    (∃ r, parseGoogleMapsDate now ("a month ago") = some r ∧
      (12 * r.year + (r.month : Int) = 12 * now.year + now.month - 1 ∨
        12 * r.year + (r.month : Int) = 12 * now.year + now.month) ∧
      r.msOfDay = now.msOfDay ∧ r.Valid) ∧
    (∃ r, parseGoogleMapsDate now ("a week ago") = some r ∧
      toDays r = toDays now - 7 ∧ r.msOfDay = now.msOfDay ∧ r.Valid) ∧
    (∃ r, parseGoogleMapsDate now ("a day ago") = some r ∧
      toDays r = toDays now - 1 ∧ r.msOfDay = now.msOfDay ∧ r.Valid) ∧
    (∃ r, parseGoogleMapsDate now ("yesterday") = some r ∧
      toDays r = toDays now - 1 ∧ r.msOfDay = now.msOfDay ∧ r.Valid) := by
  have hm11 : now.month ≤ 11 := hv.1
  have hms : now.msOfDay < 86400000 := hv.2.2.2
  refine ⟨?_, ?_, ?_, ?_, ?_, ?_, ?_, ?_, ?_, ?_⟩
  · obtain ⟨h1, h2, h3⟩ := setFullYear_facts now (now.year - parseDigits D) hv
    exact ⟨_, parse_rel_years now hD hdig hno, h1, h2, h3⟩
  · obtain ⟨h1, h2, h3⟩ :=
      setMonthJs_facts now ((now.month : Int) - parseDigits D) hv
    refine ⟨_, parse_rel_months now hD hdig hno, ?_, h1, h2⟩
    rcases h3 with h3 | h3
    · exact .inl (by omega)
    · exact .inr (by omega)
  · obtain ⟨h1, h2, h3, h4, h5⟩ :=
      setDateJs_spec now ((now.day : Int) - 7 * parseDigits D) hm11
    exact ⟨_, parse_rel_weeks now hD hdig hno, by omega,
      h4, h1, h2, h3, by omega⟩
  · obtain ⟨h1, h2, h3, h4, h5⟩ :=
      setDateJs_spec now ((now.day : Int) - parseDigits D) hm11
    exact ⟨_, parse_rel_days now hD hdig hno, by omega,
      h4, h1, h2, h3, by omega⟩
  · exact fun d2 d3 h2 h3 => parse_year_abs now h2 h3
  · obtain ⟨h1, h2, h3⟩ := setFullYear_facts now (now.year - 1) hv
    exact ⟨setFullYear now (now.year - 1), rfl, h1, h2, h3⟩
  · obtain ⟨h1, h2, h3⟩ := setMonthJs_facts now ((now.month : Int) - 1) hv
    refine ⟨setMonthJs now ((now.month : Int) - 1), rfl, ?_, h1, h2⟩
    rcases h3 with h3 | h3
    · exact .inl (by omega)
    · exact .inr (by omega)
  · obtain ⟨h1, h2, h3, h4, h5⟩ :=
      setDateJs_spec now ((now.day : Int) - 7) hm11
    exact ⟨setDateJs now ((now.day : Int) - 7), rfl, by omega,
      h4, h1, h2, h3, by omega⟩
  · obtain ⟨h1, h2, h3, h4, h5⟩ :=
      setDateJs_spec now ((now.day : Int) - 1) hm11
    exact ⟨setDateJs now ((now.day : Int) - 1), rfl, by omega,
      h4, h1, h2, h3, by omega⟩
  · obtain ⟨h1, h2, h3, h4, h5⟩ :=
      setDateJs_spec now ((now.day : Int) - 1) hm11
    exact ⟨setDateJs now ((now.day : Int) - 1), rfl, by omega,
      h4, h1, h2, h3, by omega⟩

/-- Witness for the amended relative-date theorem at `now` =
September 12, 2025 and amount string `"6"`. -/
theorem parseDate_units_amended_witness :
    (nowTest.Valid ∧ (['6'] : List Char) ≠ [] ∧
      (∀ c ∈ (['6'] : List Char), c ∈ digitChars) ∧
      ¬((['6'] : List Char).length = 4 ∧
        (['6'] : List Char).get? 0 = some '2' ∧
        (['6'] : List Char).get? 1 = some '0')) ∧
    ((∃ r, parseGoogleMapsDate nowTest ⟨['6'] ++ (" years ago").data⟩ =
        some r ∧
      r.year = nowTest.year - parseDigits ['6'] ∧
      r.msOfDay = nowTest.msOfDay ∧ r.Valid) ∧
    (∃ r, parseGoogleMapsDate nowTest ⟨['6'] ++ (" months ago").data⟩ =
        some r ∧
      (12 * r.year + (r.month : Int) =
          12 * nowTest.year + nowTest.month - parseDigits ['6'] ∨
        12 * r.year + (r.month : Int) =
          12 * nowTest.year + nowTest.month - parseDigits ['6'] + 1) ∧
      r.msOfDay = nowTest.msOfDay ∧ r.Valid) ∧
    (∃ r, parseGoogleMapsDate nowTest ⟨['6'] ++ (" weeks ago").data⟩ =
        some r ∧
      toDays r = toDays nowTest - 7 * parseDigits ['6'] ∧
      r.msOfDay = nowTest.msOfDay ∧ r.Valid) ∧
    (∃ r, parseGoogleMapsDate nowTest ⟨['6'] ++ (" days ago").data⟩ =
        some r ∧
      toDays r = toDays nowTest - parseDigits ['6'] ∧
      r.msOfDay = nowTest.msOfDay ∧ r.Valid) ∧
    (∀ d2 d3 : Char, d2 ∈ digitChars → d3 ∈ digitChars →
      parseGoogleMapsDate nowTest ⟨['2', '0', d2, d3]⟩ =
        some ⟨(parseDigits ['2', '0', d2, d3] : Int), 11, 31, 0⟩) ∧
    (∃ r, parseGoogleMapsDate nowTest ("a year ago") = some r ∧
      r.year = nowTest.year - 1 ∧ r.msOfDay = nowTest.msOfDay ∧ r.Valid) ∧
    (∃ r, parseGoogleMapsDate nowTest ("a month ago") = some r ∧
      (12 * r.year + (r.month : Int) =
          12 * nowTest.year + nowTest.month - 1 ∨
        12 * r.year + (r.month : Int) = 12 * nowTest.year + nowTest.month) ∧
      r.msOfDay = nowTest.msOfDay ∧ r.Valid) ∧
    (∃ r, parseGoogleMapsDate nowTest ("a week ago") = some r ∧
      toDays r = toDays nowTest - 7 ∧ r.msOfDay = nowTest.msOfDay ∧
      r.Valid) ∧
    (∃ r, parseGoogleMapsDate nowTest ("a day ago") = some r ∧
      toDays r = toDays nowTest - 1 ∧ r.msOfDay = nowTest.msOfDay ∧
      r.Valid) ∧
    (∃ r, parseGoogleMapsDate nowTest ("yesterday") = some r ∧
      toDays r = toDays nowTest - 1 ∧ r.msOfDay = nowTest.msOfDay ∧
      r.Valid)) :=
  ⟨⟨by decide, by decide, by decide, by decide⟩,
    parseDate_units_amended nowTest (by decide) (by decide) (by decide)
      (by decide)⟩
